import Mathlib

/-!
Shallow embedding of the awgbot peer-lifecycle / reconciliation core.

Conventions used throughout:
* Python strings are Lean `String`s; a JSON field that may be missing is an
  `Option`; a field that may be missing *or* `null` is an `Option Option`.
* External effects (docker reads/writes, engine restarts) are made explicit:
  functions take the current document/state as input and return the new one,
  together with flags recording whether a write / restart was issued.
* Machine integers are `Int`/`Nat` (telegram ids and ports are far below any
  overflow boundary and the Python code uses unbounded ints anyway).
-/

namespace AwgBot

/-- Characters kept unchanged by the tag sanitizer in `services/xray.py`
`_email` (`re.sub(r"[^A-Za-z0-9._-]", "_", name)`). -/
def keepChar (c : Char) : Bool :=
  c.isUpper || c.isLower || c.isDigit || c == '.' || c == '_' || c == '-'

/-- Model of `re.sub(r"[^A-Za-z0-9._-]", "_", name)` from `services/xray.py`.
Works on the character list so that it evaluates by kernel reduction. -/
def sanitizeName (name : String) : String :=
  ⟨name.data.map (fun c => if keepChar c then c else '_')⟩

/-- Python whitespace test used by `str.strip` / `str.split` (ASCII part). -/
def isWs (c : Char) : Bool :=
  c == ' ' || c == '\t' || c == '\n' || c == '\r' || c == '\x0b' || c == '\x0c'

/-- Model of Python `s.strip()`. -/
def pyStrip (s : String) : String :=
  ⟨((s.data.dropWhile isWs).reverse.dropWhile isWs).reverse⟩

/-- Model of Python `s.lower()` (ASCII case fold, which is all the code uses). -/
def pyLower (s : String) : String :=
  ⟨s.data.map Char.toLower⟩

/-- Model of Python `s.split()` (split on whitespace runs, no empty parts). -/
def pySplitWs (s : String) : List String :=
  ((s.data.splitOnP isWs).map (fun l => (⟨l⟩ : String))).filter (fun t => t ≠ "")

/-- Model of Python `" ".join(s.split())`: collapse whitespace runs. -/
def collapseWs (s : String) : String :=
  String.intercalate " " (pySplitWs s)

/-- Model of Python `pat in s` (substring containment) on character lists. -/
def containsSub (s pat : String) : Bool :=
  s.data.tails.any (fun t => pat.data.isPrefixOf t)

/-- Model of Python `s.startswith(pat)`. -/
def pyStartsWith (s pat : String) : Bool :=
  pat.data.isPrefixOf s.data

/-- Decimal digit characters of a natural number (fuel-driven so that it
reduces definitionally); models Python `str` on a non-negative int. -/
def natDecAux : Nat → Nat → List Char → List Char
  | 0, _, acc => acc
  | fuel + 1, n, acc =>
    let d := Char.ofNat (48 + n % 10)
    if n < 10 then d :: acc else natDecAux fuel (n / 10) (d :: acc)

/-- Decimal rendering of a natural number, modelling Python `str(n)`. -/
def natDec (n : Nat) : String :=
  ⟨natDecAux (n + 1) n []⟩

/-- Decimal rendering of an integer, modelling Python `str(i)`. -/
def intDec (i : Int) : String :=
  if i < 0 then "-" ++ natDec i.natAbs else natDec i.toNat

/-- Python `int(s)` on an all-digit string. -/
def digitsToNat (s : String) : Nat :=
  s.data.foldl (fun a c => a * 10 + (c.toNat - 48)) 0

/-- Split a character list at the first occurrence of `sep`. -/
def splitFirstChars (sep : Char) : List Char → Option (List Char × List Char)
  | [] => none
  | c :: cs =>
    if c = sep then some ([], cs)
    else (splitFirstChars sep cs).map (fun p => (c :: p.1, p.2))

/-- Model of Python `s.split(sep, 1)` when `sep` occurs in `s`
(`none` when it does not occur). -/
def splitFirst (s : String) (sep : Char) : Option (String × String) :=
  (splitFirstChars sep s.data).map (fun p => (⟨p.1⟩, ⟨p.2⟩))

/-- The live tag built by `services/xray.py` `_email`: `f"{tg_id}-{safe}"`. -/
def emailTag (tg_id : Int) (name : String) : String :=
  intDec tg_id ++ "-" ++ sanitizeName name

/-- Model of `services/xray.py` `is_bot_email`: the tag has the bot form
`<digits>-<name>`. -/
def is_bot_email (email : String) : Bool :=
  match splitFirst email '-' with
  | none => false
  | some (left, _) => left ≠ "" && left.data.all Char.isDigit

/-- One entry of the live tunnel-engine inbound client array
(`server.json` → `inbounds[i].settings.clients`): fields `id`, `flow`
(possibly absent), `email`. -/
structure Client where
  id : String
  flow : Option String
  email : String
deriving DecidableEq, Repr, Inhabited

/-- Model of `services/xray.py` `_find_client`: index and value of the first
client whose `email` equals the given tag. -/
def find_client : List Client → String → Option (Nat × Client)
  | [], _ => none
  | c :: cs, email =>
    if c.email = email then some (0, c)
    else (find_client cs email).map (fun p => (p.1 + 1, p.2))

/-- Model of `services/xray.py` `_flow`: the first client's flow, with the
engine default as fallback. -/
def flowDefault : List Client → String
  | [] => "xtls-rprx-vision"
  | c :: _ => c.flow.getD "xtls-rprx-vision"

/-- The snapshot `{"uuid", "flow", "email"}` returned by suspension. -/
structure Snap where
  uuid : String
  flow : String
  email : String
deriving DecidableEq, Repr

/-- Result of `suspend_user_by_name`: the optional snapshot, the resulting
client array, and whether the document was written / the engine restarted. -/
structure SuspendResult where
  snap : Option Snap
  clients : List Client
  wrote : Bool
  restarted : Bool
deriving DecidableEq, Repr

/-- Model of `services/xray.py` `suspend_user_by_name`: removes the first
client whose tag matches and returns the snapshot; on the not-found path it
returns `None` without writing the document or restarting the engine. -/
def suspend_user_by_name (clients : List Client) (tg_id : Int) (name : String) :
    SuspendResult :=
  let email := emailTag tg_id name
  match find_client clients email with
  | none => ⟨none, clients, false, false⟩
  | some (idx, cli) =>
    let snap : Snap := ⟨cli.id, cli.flow.getD "xtls-rprx-vision", email⟩
    ⟨some snap, clients.take idx ++ clients.drop (idx + 1), true, true⟩

/-- Result of `resume_user_by_name`: success flag, resulting client array,
and whether the document was written (and the engine restarted). -/
structure ResumeResult where
  ok : Bool
  clients : List Client
  wrote : Bool
deriving DecidableEq, Repr

/-- Model of `services/xray.py` `resume_user_by_name`: re-inserts a client
with the *given* uuid (never a fresh one); a no-op when the tag is already
present. -/
def resume_user_by_name (clients : List Client) (tg_id : Int) (name : String)
    (uuid : String) (flow : Option String) : ResumeResult :=
  let email := emailTag tg_id name
  match find_client clients email with
  | some _ => ⟨true, clients, false⟩
  | none =>
    let f1 := flow.getD ""
    let f2 := if f1 ≠ "" then f1 else flowDefault clients
    let flow_to_use := if f2 ≠ "" then f2 else "xtls-rprx-vision"
    ⟨true, clients ++ [⟨uuid, some flow_to_use, email⟩], true⟩

/-- Model of `services/xray.py` `remove_user_by_name`: drops every client
whose tag matches; reports whether anything was removed (and written). -/
def services_remove_user_by_name (clients : List Client) (tg_id : Int)
    (name : String) : Bool × List Client :=
  let email := emailTag tg_id name
  let new_clients := clients.filter (fun c => c.email ≠ email)
  if new_clients.length = clients.length then (false, clients)
  else (true, new_clients)

/-- Model of `services/xray.py` `ensure_user_uuid_flow`: updates the first
client whose tag matches to the wanted uuid/flow, appending a new entry when
the tag is absent. -/
def ensure_user_uuid_flow (clients : List Client) (tg_id : Int) (name : String)
    (uuid_val : String) (flow_val : Option String) : Bool × List Client :=
  let email := emailTag tg_id name
  match find_client clients email with
  | some (idx, cli) =>
    let cli1 := if cli.id ≠ uuid_val then { cli with id := uuid_val } else cli
    let cli2 :=
      match flow_val with
      | some fv =>
        if fv ≠ "" ∧ cli1.flow ≠ some fv then { cli1 with flow := some fv } else cli1
      | none => cli1
    (true, clients.set idx cli2)
  | none =>
    let f1 := flow_val.getD ""
    let f2 := if f1 ≠ "" then f1 else flowDefault clients
    let flow_to_use := if f2 ≠ "" then f2 else "xtls-rprx-vision"
    (true, clients ++ [⟨uuid_val, some flow_to_use, email⟩])

/-- One row of `services/xray.py` `list_all`: the parsed view of a live
client, with provenance (`source`) recovered from the tag. -/
structure XClient where
  tid : Int
  name : String
  uuid : String
  sni : String
  port : Int
  flow : String
  source : String
  email : String
deriving DecidableEq, Repr, Inhabited

/-- Model of `services/xray.py` `list_all` over the inbound's client array:
splits each tag at the first dash; a digits-only left part marks a bot-owned
entry, anything else is `foreign`. `sni` and `port` are the values read from
the inbound definition. -/
def list_all (clients : List Client) (sni : String) (port : Int) : List XClient :=
  let default_flow := flowDefault clients
  clients.map (fun c =>
    let flow_val := c.flow.getD default_flow
    match splitFirst c.email '-' with
    | some (l, r) =>
      if l ≠ "" ∧ l.data.all Char.isDigit then
        ⟨(digitsToNat l : Nat), r, c.id, sni, port, flow_val, "bot", c.email⟩
      else ⟨0, c.email, c.id, sni, port, flow_val, "foreign", c.email⟩
    | none => ⟨0, c.email, c.id, sni, port, flow_val, "foreign", c.email⟩)

theorem find_client_none (e : String) :
    ∀ l : List Client, (∀ c ∈ l, c.email ≠ e) → find_client l e = none := by
  intro l
  induction l with
  | nil => intro _; rfl
  | cons c cs ih =>
    intro h
    simp only [find_client]
    rw [if_neg (h c (List.mem_cons_self _ _)),
      ih (fun d hd => h d (List.mem_cons_of_mem _ hd))]
    rfl

theorem find_client_pre (e : String) (c : Client) (hc : c.email = e) :
    ∀ pre post, (∀ d ∈ pre, d.email ≠ e) →
      find_client (pre ++ c :: post) e = some (pre.length, c) := by
  intro pre
  induction pre with
  | nil => intro post _; simp [find_client, hc]
  | cons d ds ih =>
    intro post h
    simp only [List.cons_append, find_client, List.append_eq]
    rw [if_neg (h d (List.mem_cons_self _ _)),
      ih post (fun x hx => h x (List.mem_cons_of_mem _ hx))]
    rfl

theorem take_append_len (pre rest : List Client) :
    (pre ++ rest).take pre.length = pre := by
  induction pre with
  | nil => rfl
  | cons d ds ih => simpa using ih

theorem drop_append_len_succ (pre post : List Client) (c : Client) :
    (pre ++ c :: post).drop (pre.length + 1) = post := by
  induction pre with
  | nil => rfl
  | cons d ds ih => simpa using ih

/-- C10: if no client whose tag is derived from `(ownerId, name)` exists in
the live tunnel-engine document, `suspend_user_by_name` returns `None`,
performs no write to the live document and no engine reload: the live
configuration comes back exactly unchanged. -/
theorem suspend_user_not_found_leaves_live_unchanged
    (clients : List Client) (tg_id : Int) (name : String)
    (h : ∀ c ∈ clients, c.email ≠ emailTag tg_id name) :
    suspend_user_by_name clients tg_id name = ⟨none, clients, false, false⟩ := by
  simp only [suspend_user_by_name]
  rw [find_client_none _ _ h]

/-- Witness for C10 at a concrete live document. -/
theorem suspend_user_not_found_leaves_live_unchanged_w :
    suspend_user_by_name [⟨"u1", some "fl", "7-a"⟩] 7 "b"
      = ⟨none, [⟨"u1", some "fl", "7-a"⟩], false, false⟩ :=
  suspend_user_not_found_leaves_live_unchanged _ 7 "b" (by decide)

/-- C3: for a client present in the live document (decomposed as
`pre ++ c :: post`, with the tag occurring nowhere else), suspension removes
exactly its entry and returns a snapshot carrying its identity, flow and tag,
and resuming with that snapshot re-inserts an entry whose `id` equals the
snapshot's uuid — so after a suspend/resume cycle the client registered under
the tag has exactly the original identity. -/
theorem suspend_resume_preserves_identity
    (tg_id : Int) (name : String) (pre post : List Client) (c : Client)
    (fl : Option String)
    (hc : c.email = emailTag tg_id name)
    (hpre : ∀ d ∈ pre, d.email ≠ emailTag tg_id name)
    (hpost : ∀ d ∈ post, d.email ≠ emailTag tg_id name) :
    ∃ snap : Snap,
      suspend_user_by_name (pre ++ c :: post) tg_id name
        = ⟨some snap, pre ++ post, true, true⟩
      ∧ snap.uuid = c.id
      ∧ snap.email = emailTag tg_id name
      ∧ (∀ f, c.flow = some f → snap.flow = f)
      ∧ (let r := resume_user_by_name (pre ++ post) tg_id name snap.uuid fl
         r.ok = true ∧ r.wrote = true ∧
           ∀ d ∈ r.clients, d.email = emailTag tg_id name → d.id = c.id) := by
  refine ⟨⟨c.id, c.flow.getD "xtls-rprx-vision", emailTag tg_id name⟩, ?_, rfl, rfl, ?_, ?_⟩
  · simp only [suspend_user_by_name]
    rw [find_client_pre _ c hc pre post hpre]
    simp only [take_append_len pre (c :: post), drop_append_len_succ pre post c]
  · intro f hf; rw [hf]; rfl
  · have hnone : find_client (pre ++ post) (emailTag tg_id name) = none := by
      apply find_client_none
      intro d hd
      rcases List.mem_append.mp hd with h1 | h1
      · exact hpre d h1
      · exact hpost d h1
    simp only [resume_user_by_name, hnone]
    refine ⟨trivial, trivial, ?_⟩
    intro d hd he
    rcases List.mem_append.mp hd with h1 | h1
    · rcases List.mem_append.mp h1 with h2 | h2
      · exact absurd he (hpre d h2)
      · exact absurd he (hpost d h2)
    · rcases List.mem_singleton.mp h1 with rfl
      rfl

/-- Witness for C3 at a concrete live document. -/
theorem suspend_resume_preserves_identity_w :
    ∃ snap : Snap,
      suspend_user_by_name
          [⟨"other", none, "foreignTag"⟩, ⟨"uuid-1", some "fl", "7-a"⟩]
          7 "a" = ⟨some snap, [⟨"other", none, "foreignTag"⟩], true, true⟩
      ∧ snap.uuid = "uuid-1"
      ∧ snap.email = emailTag 7 "a"
      ∧ (∀ f, (some "fl" : Option String) = some f → snap.flow = f)
      ∧ (let r := resume_user_by_name [⟨"other", none, "foreignTag"⟩] 7 "a"
             snap.uuid none
         r.ok = true ∧ r.wrote = true ∧
           ∀ d ∈ r.clients, d.email = emailTag 7 "a" → d.id = "uuid-1") :=
  suspend_resume_preserves_identity 7 "a" [⟨"other", none, "foreignTag"⟩] []
    ⟨"uuid-1", some "fl", "7-a"⟩ none (by decide) (by decide) (by decide)

/-- One profile entry of the durable registry `state.json`
(`users.<tid>.profiles[*]`). A missing `uuid`/`flow` key is `none`; the
`name` key is modelled as present (profiles written by the bot always carry
it, and `sync_collect` reads `p["name"]` unguarded). -/
structure StProfile where
  name : String
  ptype : String
  deleted : Bool
  suspended : Bool
  uuid : Option String
  flow : Option String
  last_xray_sync_at : Option String
deriving DecidableEq, Repr, Inhabited

/-- One user record of `state.json`. -/
structure UserRec where
  allowed : Bool
  profiles : List StProfile
deriving DecidableEq, Repr, Inhabited

/-- The `state.json` document: user records keyed by the decimal string of
the owning telegram id (Python dict iteration order = insertion order, which
the association list preserves). -/
structure BotState where
  users : List (String × UserRec)
deriving DecidableEq, Repr

/-- Model of `features/sync/collect.py` `profiles_active`: the non-deleted
profiles of one user. -/
def profiles_active (u : UserRec) : List StProfile :=
  u.profiles.filter (fun p => !p.deleted)

/-- Element of the `only_in_state` / `suspended` / `active` result lists. -/
structure Item where
  tid : Int
  name : String
deriving DecidableEq, Repr

/-- Element of the `diverged` result list, tagged with the differing fields. -/
structure DivergedItem where
  tid : Int
  name : String
  diffs : List String
deriving DecidableEq, Repr

/-- Element of the `only_in_xray` result list. -/
structure ExtraItem where
  tid : Int
  name : String
  uuid : String
deriving DecidableEq, Repr

/-- The snapshot returned by `sync_collect` (counters, being the lengths of
these lists, are omitted). -/
structure SyncSnapshot where
  only_in_state : List Item
  only_in_xray : List ExtraItem
  diverged : List DivergedItem
  suspended : List Item
  active : List Item
  foreign : List XClient
deriving DecidableEq, Repr

/-- The dict `xray_by_key` of `sync_collect`, built over the bot-owned live
entries; later entries override earlier ones, so lookup is last-match. -/
def xrayByKey (bots : List XClient) (tid : Int) (name : String) : Option XClient :=
  bots.reverse.find? (fun c => decide (c.tid = tid) && decide (c.name = name))

/-- The field comparison of `sync_collect`: a field counts as diverged only
when both the registry value and the live value are non-empty after
stripping and they differ; `"uuid"` is flagged before `"flow"`. -/
def entryDiffs (p : StProfile) (xr : XClient) : List String :=
  (if pyStrip (p.uuid.getD "") ≠ "" ∧ pyStrip xr.uuid ≠ "" ∧
      pyStrip (p.uuid.getD "") ≠ pyStrip xr.uuid then ["uuid"] else []) ++
  (if pyStrip (p.flow.getD "") ≠ "" ∧ pyStrip xr.flow ≠ "" ∧
      pyStrip (p.flow.getD "") ≠ pyStrip xr.flow then ["flow"] else [])

/-- Outcome of the classification branch of `sync_collect` for one profile. -/
inductive EntryClass where
  | skip
  | activeC
  | divergedC (diffs : List String)
  | suspendedC
  | absentC
deriving DecidableEq, Repr

/-- The branch structure of the `sync_collect` loop body for one profile of
user `tid` (`skip` models the `continue` on non-xray profiles). -/
def classifyEntry (bots : List XClient) (tid : Int) (p : StProfile) : EntryClass :=
  if p.ptype ≠ "xray" then .skip
  else
    match xrayByKey bots tid p.name, p.suspended with
    | some xr, false =>
      if entryDiffs p xr = [] then .activeC else .divergedC (entryDiffs p xr)
    | some _, true => .suspendedC
    | none, true => .suspendedC
    | none, false => .absentC

/-- One iteration of the `sync_collect` classification loop: appends the
examined profile to the list selected by its class. -/
def collectStep (bots : List XClient) (tid : Int) (acc : SyncSnapshot)
    (p : StProfile) : SyncSnapshot :=
  match classifyEntry bots tid p with
  | .skip => acc
  | .activeC => { acc with active := acc.active ++ [⟨tid, p.name⟩] }
  | .divergedC ds => { acc with diverged := acc.diverged ++ [⟨tid, p.name, ds⟩] }
  | .suspendedC => { acc with suspended := acc.suspended ++ [⟨tid, p.name⟩] }
  | .absentC => { acc with only_in_state := acc.only_in_state ++ [⟨tid, p.name⟩] }

/-- The `state_keys` set of `sync_collect`: keys of all active xray profiles
of users with an int-parsable key (membership in the list models membership
in the Python set). -/
def stateKeys (st : BotState) : List (Int × String) :=
  st.users.foldl (fun acc kv =>
    match kv.1.toInt? with
    | none => acc
    | some tid =>
      acc ++ ((profiles_active kv.2).filter (fun p => decide (p.ptype = "xray"))).map
        (fun p => (tid, p.name))) []

/-- Model of `features/sync/collect.py` `sync_collect` over the registry
document and the live snapshot `xlist` (the result of the guarded
`XR.list_all()` call; on failure the code substitutes `[]`). -/
def sync_collect (st : BotState) (xlist : List XClient) : SyncSnapshot :=
  let xray_bot := xlist.filter (fun c => decide (c.source = "bot"))
  let xray_foreign := xlist.filter (fun c => decide (c.source ≠ "bot"))
  let base : SyncSnapshot := ⟨[], [], [], [], [], xray_foreign⟩
  let afterUsers :=
    st.users.foldl (fun acc kv =>
      match kv.1.toInt? with
      | none => acc
      | some tid => (profiles_active kv.2).foldl (collectStep xray_bot tid) acc) base
  let sk := stateKeys st
  let extras := xray_bot.foldl (fun acc c =>
      if (c.tid, c.name) ∈ sk then acc
      else acc ++ [⟨c.tid, c.name, c.uuid⟩]) ([] : List ExtraItem)
  { afterUsers with only_in_xray := extras }

/-- The registry entries examined by the `sync_collect` loop: every
non-deleted profile of every user whose key parses as an int, paired with
the parsed id, in iteration order. -/
def examinedOf : List (String × UserRec) → List (Int × StProfile)
  | [] => []
  | kv :: rest =>
    (match kv.1.toInt? with
     | none => []
     | some tid => (profiles_active kv.2).map (fun p => (tid, p))) ++ examinedOf rest

/-- The entries examined by `sync_collect` over a whole state document. -/
def examinedEntries (st : BotState) : List (Int × StProfile) :=
  examinedOf st.users

/-- The diffs `sync_collect` computes for an examined entry against the live
lookup (empty when the entry is not present live). -/
def liveDiffs (bots : List XClient) (tid : Int) (p : StProfile) : List String :=
  match xrayByKey bots tid p.name with
  | some xr => entryDiffs p xr
  | none => []

theorem foldl_collectStep_char (bots : List XClient) (tid : Int) :
    ∀ (ps : List StProfile) (acc : SyncSnapshot),
      ps.foldl (collectStep bots tid) acc =
        { acc with
          active := acc.active ++ ps.filterMap (fun p =>
            match classifyEntry bots tid p with
            | .activeC => some ⟨tid, p.name⟩ | _ => none),
          diverged := acc.diverged ++ ps.filterMap (fun p =>
            match classifyEntry bots tid p with
            | .divergedC ds => some ⟨tid, p.name, ds⟩ | _ => none),
          suspended := acc.suspended ++ ps.filterMap (fun p =>
            match classifyEntry bots tid p with
            | .suspendedC => some ⟨tid, p.name⟩ | _ => none),
          only_in_state := acc.only_in_state ++ ps.filterMap (fun p =>
            match classifyEntry bots tid p with
            | .absentC => some ⟨tid, p.name⟩ | _ => none) } := by
  intro ps
  induction ps with
  | nil => intro acc; simp
  | cons p ps ih =>
    intro acc
    simp only [List.foldl_cons]
    rw [ih]
    cases h : classifyEntry bots tid p <;>
      simp [collectStep, h, List.filterMap_cons, List.append_assoc]

theorem foldl_users_char (bots : List XClient) :
    ∀ (us : List (String × UserRec)) (acc : SyncSnapshot),
      us.foldl (fun acc kv =>
        match kv.1.toInt? with
        | none => acc
        | some tid => (profiles_active kv.2).foldl (collectStep bots tid) acc) acc =
      { acc with
        active := acc.active ++ (examinedOf us).filterMap (fun e =>
          match classifyEntry bots e.1 e.2 with
          | .activeC => some ⟨e.1, e.2.name⟩ | _ => none),
        diverged := acc.diverged ++ (examinedOf us).filterMap (fun e =>
          match classifyEntry bots e.1 e.2 with
          | .divergedC ds => some ⟨e.1, e.2.name, ds⟩ | _ => none),
        suspended := acc.suspended ++ (examinedOf us).filterMap (fun e =>
          match classifyEntry bots e.1 e.2 with
          | .suspendedC => some ⟨e.1, e.2.name⟩ | _ => none),
        only_in_state := acc.only_in_state ++ (examinedOf us).filterMap (fun e =>
          match classifyEntry bots e.1 e.2 with
          | .absentC => some ⟨e.1, e.2.name⟩ | _ => none) } := by
  intro us
  induction us with
  | nil => intro acc; simp [examinedOf]
  | cons kv rest ih =>
    intro acc
    simp only [List.foldl_cons, examinedOf]
    cases h : kv.1.toInt? with
    | none => rw [ih]; simp [h]
    | some tid =>
      rw [ih]
      simp [foldl_collectStep_char, List.filterMap_append, List.filterMap_map,
        Function.comp, List.append_assoc]
      exact ⟨rfl, rfl, rfl, rfl⟩

theorem classify_eq_active_iff (bots : List XClient) (tid : Int) (p : StProfile) :
    classifyEntry bots tid p = .activeC ↔
      p.ptype = "xray" ∧ (xrayByKey bots tid p.name).isSome = true ∧
        p.suspended = false ∧ liveDiffs bots tid p = [] := by
  unfold classifyEntry liveDiffs
  by_cases hty : p.ptype = "xray"
  · cases hx : xrayByKey bots tid p.name with
    | none => cases hs : p.suspended <;> simp [hty, hx, hs]
    | some xr =>
      cases hs : p.suspended
      · by_cases hd : entryDiffs p xr = [] <;> simp [hty, hx, hs, hd]
      · simp [hty, hx, hs]
  · simp [hty]

theorem classify_eq_diverged_iff (bots : List XClient) (tid : Int) (p : StProfile)
    (ds : List String) :
    classifyEntry bots tid p = .divergedC ds ↔
      p.ptype = "xray" ∧ (xrayByKey bots tid p.name).isSome = true ∧
        p.suspended = false ∧ liveDiffs bots tid p = ds ∧ ds ≠ [] := by
  unfold classifyEntry liveDiffs
  by_cases hty : p.ptype = "xray"
  · cases hx : xrayByKey bots tid p.name with
    | none => cases hs : p.suspended <;> simp [hty, hx, hs]
    | some xr =>
      cases hs : p.suspended
      · by_cases hd : entryDiffs p xr = []
        · simp [hty, hx, hs, hd]
        · simp [hty, hx, hs, hd]
          intro h; rw [← h]; exact hd
      · simp [hty, hx, hs]
  · simp [hty]

theorem classify_eq_suspended_iff (bots : List XClient) (tid : Int) (p : StProfile) :
    classifyEntry bots tid p = .suspendedC ↔
      p.ptype = "xray" ∧ p.suspended = true := by
  unfold classifyEntry
  by_cases hty : p.ptype = "xray"
  · cases hx : xrayByKey bots tid p.name with
    | none => cases hs : p.suspended <;> simp [hty, hx, hs]
    | some xr =>
      cases hs : p.suspended
      · by_cases hd : entryDiffs p xr = [] <;> simp [hty, hx, hs, hd]
      · simp [hty, hx, hs]
  · simp [hty]

theorem classify_eq_absent_iff (bots : List XClient) (tid : Int) (p : StProfile) :
    classifyEntry bots tid p = .absentC ↔
      p.ptype = "xray" ∧ (xrayByKey bots tid p.name).isSome = false ∧
        p.suspended = false := by
  unfold classifyEntry
  by_cases hty : p.ptype = "xray"
  · cases hx : xrayByKey bots tid p.name with
    | none => cases hs : p.suspended <;> simp [hty, hx, hs]
    | some xr =>
      cases hs : p.suspended
      · by_cases hd : entryDiffs p xr = [] <;> simp [hty, hx, hs, hd]
      · simp [hty, hx, hs]
  · simp [hty]

theorem filterMap_active_eq (bots : List XClient) :
    ∀ l : List (Int × StProfile),
      l.filterMap (fun e =>
        match classifyEntry bots e.1 e.2 with
        | .activeC => some (⟨e.1, e.2.name⟩ : Item) | _ => none)
      = (l.filter (fun e => decide (e.2.ptype = "xray" ∧
            (xrayByKey bots e.1 e.2.name).isSome = true ∧ e.2.suspended = false ∧
            liveDiffs bots e.1 e.2 = []))).map (fun e => ⟨e.1, e.2.name⟩) := by
  intro l
  induction l with
  | nil => rfl
  | cons e l ih =>
    by_cases hq : e.2.ptype = "xray" ∧ (xrayByKey bots e.1 e.2.name).isSome = true ∧
        e.2.suspended = false ∧ liveDiffs bots e.1 e.2 = []
    · have hc : classifyEntry bots e.1 e.2 = .activeC :=
        (classify_eq_active_iff bots e.1 e.2).mpr hq
      simp only [List.filterMap_cons, hc]
      rw [List.filter_cons_of_pos (by simp only [decide_eq_true_eq]; exact hq), List.map_cons, ih]
    · have hc : classifyEntry bots e.1 e.2 ≠ .activeC :=
        fun h => hq ((classify_eq_active_iff bots e.1 e.2).mp h)
      simp only [List.filterMap_cons]
      cases h : classifyEntry bots e.1 e.2 <;>
        first
        | exact absurd h hc
        | (rw [List.filter_cons_of_neg (by simp only [decide_eq_true_eq]; exact hq)]; exact ih)

theorem filterMap_diverged_eq (bots : List XClient) :
    ∀ l : List (Int × StProfile),
      l.filterMap (fun e =>
        match classifyEntry bots e.1 e.2 with
        | .divergedC ds => some (⟨e.1, e.2.name, ds⟩ : DivergedItem) | _ => none)
      = (l.filter (fun e => decide (e.2.ptype = "xray" ∧
            (xrayByKey bots e.1 e.2.name).isSome = true ∧ e.2.suspended = false ∧
            liveDiffs bots e.1 e.2 ≠ []))).map
          (fun e => ⟨e.1, e.2.name, liveDiffs bots e.1 e.2⟩) := by
  intro l
  induction l with
  | nil => rfl
  | cons e l ih =>
    by_cases hq : e.2.ptype = "xray" ∧ (xrayByKey bots e.1 e.2.name).isSome = true ∧
        e.2.suspended = false ∧ liveDiffs bots e.1 e.2 ≠ []
    · have hc : classifyEntry bots e.1 e.2 = .divergedC (liveDiffs bots e.1 e.2) :=
        (classify_eq_diverged_iff bots e.1 e.2 _).mpr
          ⟨hq.1, hq.2.1, hq.2.2.1, rfl, hq.2.2.2⟩
      simp only [List.filterMap_cons, hc]
      rw [List.filter_cons_of_pos (by simp only [decide_eq_true_eq]; exact hq), List.map_cons, ih]
    · have hc : ∀ ds, classifyEntry bots e.1 e.2 ≠ .divergedC ds := by
        intro ds h
        have := (classify_eq_diverged_iff bots e.1 e.2 ds).mp h
        exact hq ⟨this.1, this.2.1, this.2.2.1, this.2.2.2.1 ▸ this.2.2.2.2⟩
      simp only [List.filterMap_cons]
      cases h : classifyEntry bots e.1 e.2 <;>
        first
        | exact absurd h (hc _)
        | (rw [List.filter_cons_of_neg (by simp only [decide_eq_true_eq]; exact hq)]; exact ih)

theorem filterMap_suspended_eq (bots : List XClient) :
    ∀ l : List (Int × StProfile),
      l.filterMap (fun e =>
        match classifyEntry bots e.1 e.2 with
        | .suspendedC => some (⟨e.1, e.2.name⟩ : Item) | _ => none)
      = (l.filter (fun e => decide (e.2.ptype = "xray" ∧ e.2.suspended = true))).map
          (fun e => ⟨e.1, e.2.name⟩) := by
  intro l
  induction l with
  | nil => rfl
  | cons e l ih =>
    by_cases hq : e.2.ptype = "xray" ∧ e.2.suspended = true
    · have hc : classifyEntry bots e.1 e.2 = .suspendedC :=
        (classify_eq_suspended_iff bots e.1 e.2).mpr hq
      simp only [List.filterMap_cons, hc]
      rw [List.filter_cons_of_pos (by simp only [decide_eq_true_eq]; exact hq), List.map_cons, ih]
    · have hc : classifyEntry bots e.1 e.2 ≠ .suspendedC :=
        fun h => hq ((classify_eq_suspended_iff bots e.1 e.2).mp h)
      simp only [List.filterMap_cons]
      cases h : classifyEntry bots e.1 e.2 <;>
        first
        | exact absurd h hc
        | (rw [List.filter_cons_of_neg (by simp only [decide_eq_true_eq]; exact hq)]; exact ih)

theorem filterMap_absent_eq (bots : List XClient) :
    ∀ l : List (Int × StProfile),
      l.filterMap (fun e =>
        match classifyEntry bots e.1 e.2 with
        | .absentC => some (⟨e.1, e.2.name⟩ : Item) | _ => none)
      = (l.filter (fun e => decide (e.2.ptype = "xray" ∧
            (xrayByKey bots e.1 e.2.name).isSome = false ∧
            e.2.suspended = false))).map (fun e => ⟨e.1, e.2.name⟩) := by
  intro l
  induction l with
  | nil => rfl
  | cons e l ih =>
    by_cases hq : e.2.ptype = "xray" ∧ (xrayByKey bots e.1 e.2.name).isSome = false ∧
        e.2.suspended = false
    · have hc : classifyEntry bots e.1 e.2 = .absentC :=
        (classify_eq_absent_iff bots e.1 e.2).mpr hq
      simp only [List.filterMap_cons, hc]
      rw [List.filter_cons_of_pos (by simp only [decide_eq_true_eq]; exact hq), List.map_cons, ih]
    · have hc : classifyEntry bots e.1 e.2 ≠ .absentC :=
        fun h => hq ((classify_eq_absent_iff bots e.1 e.2).mp h)
      simp only [List.filterMap_cons]
      cases h : classifyEntry bots e.1 e.2 <;>
        first
        | exact absurd h hc
        | (rw [List.filter_cons_of_neg (by simp only [decide_eq_true_eq]; exact hq)]; exact ih)

/-- C1: for every registry entry examined by `sync_collect` the assigned
class follows exactly the spec's algorithm: `active` when present live (in
the bot-owned live snapshot), not suspended, and without uuid/flow
divergence; `diverged` — tagged with the specific differing fields — when
present live, not suspended, but a recorded uuid/flow differs from the live
entry's; `suspended` whenever the registry marks it suspended, regardless of
live presence; and `absent` (`only_in_state`) exactly when not present live
and not suspended — in particular a suspended entry that is absent live goes
to `suspended` and never to `only_in_state`. -/
theorem sync_collect_classification (st : BotState) (xlist : List XClient) :
    ((sync_collect st xlist).active =
      ((examinedEntries st).filter (fun e =>
        decide (e.2.ptype = "xray" ∧
          (xrayByKey (xlist.filter (fun c => decide (c.source = "bot")))
            e.1 e.2.name).isSome = true ∧
          e.2.suspended = false ∧
          liveDiffs (xlist.filter (fun c => decide (c.source = "bot")))
            e.1 e.2 = []))).map (fun e => (⟨e.1, e.2.name⟩ : Item)))
    ∧ ((sync_collect st xlist).diverged =
      ((examinedEntries st).filter (fun e =>
        decide (e.2.ptype = "xray" ∧
          (xrayByKey (xlist.filter (fun c => decide (c.source = "bot")))
            e.1 e.2.name).isSome = true ∧
          e.2.suspended = false ∧
          liveDiffs (xlist.filter (fun c => decide (c.source = "bot")))
            e.1 e.2 ≠ []))).map
        (fun e => (⟨e.1, e.2.name,
          liveDiffs (xlist.filter (fun c => decide (c.source = "bot")))
            e.1 e.2⟩ : DivergedItem)))
    ∧ ((sync_collect st xlist).suspended =
      ((examinedEntries st).filter (fun e =>
        decide (e.2.ptype = "xray" ∧ e.2.suspended = true))).map
        (fun e => (⟨e.1, e.2.name⟩ : Item)))
    ∧ ((sync_collect st xlist).only_in_state =
      ((examinedEntries st).filter (fun e =>
        decide (e.2.ptype = "xray" ∧
          (xrayByKey (xlist.filter (fun c => decide (c.source = "bot")))
            e.1 e.2.name).isSome = false ∧
          e.2.suspended = false))).map (fun e => (⟨e.1, e.2.name⟩ : Item))) := by
  refine ⟨?_, ?_, ?_, ?_⟩ <;>
    simp only [sync_collect, foldl_users_char, List.nil_append,
      filterMap_active_eq, filterMap_diverged_eq, filterMap_suspended_eq,
      filterMap_absent_eq, examinedEntries]

/-- Model of `features/sync/apply.py` `_find_xray_bot_client`: the first
listed live client with `source = "bot"` and matching `(tid, name)`. -/
def find_xray_bot_client (xlist : List XClient) (tid : Int) (name : String) :
    Option XClient :=
  xlist.find? (fun c =>
    decide (c.source = "bot") && decide (c.tid = tid) && decide (c.name = name))

theorem natDecAux_digits : ∀ (fuel n : Nat) (acc : List Char),
    (∀ c ∈ acc, c.isDigit = true) → ∀ c ∈ natDecAux fuel n acc, c.isDigit = true := by
  intro fuel
  induction fuel with
  | zero => intro n acc hacc c hc; exact hacc c hc
  | succ fuel ih =>
    intro n acc hacc c hc
    have h10 : n % 10 < 10 := Nat.mod_lt _ (by norm_num)
    have hd : (Char.ofNat (48 + n % 10)).isDigit = true := by
      interval_cases h : n % 10 <;> decide
    simp only [natDecAux] at hc
    by_cases hn : n < 10
    · rw [if_pos hn] at hc
      rcases List.mem_cons.mp hc with rfl | hmem
      · exact hd
      · exact hacc c hmem
    · rw [if_neg hn] at hc
      refine ih (n / 10) _ ?_ c hc
      intro d hdm
      rcases List.mem_cons.mp hdm with rfl | hm
      · exact hd
      · exact hacc d hm

theorem natDec_digits (n : Nat) : ∀ c ∈ (natDec n).data, c.isDigit = true :=
  natDecAux_digits (n + 1) n [] (by simp)

theorem natDecAux_acc_ne : ∀ (fuel n : Nat) (acc : List Char),
    acc ≠ [] → natDecAux fuel n acc ≠ [] := by
  intro fuel
  induction fuel with
  | zero => intro n acc h; simpa [natDecAux] using h
  | succ fuel ih =>
    intro n acc h
    simp only [natDecAux]
    by_cases hn : n < 10
    · rw [if_pos hn]; simp
    · rw [if_neg hn]; exact ih (n / 10) _ (by simp)

theorem natDec_ne_nil (n : Nat) : (natDec n).data ≠ [] := by
  show natDecAux (n + 1) n [] ≠ []
  simp only [natDecAux]
  by_cases hn : n < 10
  · rw [if_pos hn]; simp
  · rw [if_neg hn]; exact natDecAux_acc_ne n (n / 10) _ (by simp)

theorem digit_ne_dash (c : Char) (h : c.isDigit = true) : c ≠ '-' := by
  intro heq
  subst heq
  exact absurd h (by decide)

theorem splitFirstChars_left (sep : Char) :
    ∀ (l1 l2 : List Char), (∀ c ∈ l1, c ≠ sep) →
      splitFirstChars sep (l1 ++ sep :: l2) = some (l1, l2) := by
  intro l1
  induction l1 with
  | nil => intro l2 _; simp [splitFirstChars]
  | cons c cs ih =>
    intro l2 h
    simp only [List.cons_append, splitFirstChars, List.append_eq]
    rw [if_neg (h c (List.mem_cons_self _ _)),
      ih l2 (fun d hd => h d (List.mem_cons_of_mem _ hd))]
    rfl

theorem emailTag_data (tg_id : Int) (name : String) (h : 0 ≤ tg_id) :
    (emailTag tg_id name).data
      = (natDec tg_id.toNat).data ++ '-' :: (sanitizeName name).data := by
  unfold emailTag intDec
  rw [if_neg (by omega : ¬ tg_id < 0)]
  rw [String.data_append, String.data_append]
  rw [List.append_assoc]
  rfl

/-- The tag built for a non-negative owner id always satisfies the bot
naming convention. -/
theorem is_bot_email_emailTag (tg_id : Int) (name : String) (h : 0 ≤ tg_id) :
    is_bot_email (emailTag tg_id name) = true := by
  unfold is_bot_email splitFirst
  rw [emailTag_data tg_id name h,
    splitFirstChars_left '-' _ _
      (fun c hc => digit_ne_dash c (natDec_digits tg_id.toNat c hc))]
  simp only [Option.map]
  have h1 : (⟨(natDec tg_id.toNat).data⟩ : String) = natDec tg_id.toNat := rfl
  rw [h1]
  have h2 : natDec tg_id.toNat ≠ "" := by
    intro he
    exact natDec_ne_nil tg_id.toNat (by rw [he])
  simp [h2, List.all_eq_true]
  exact natDec_digits tg_id.toNat

theorem find_client_keep (e : String) :
    ∀ (l : List Client) (i : Nat) (c : Client), find_client l e = some (i, c) →
      c.email = e ∧
      (∀ d ∈ l, d.email ≠ e → d ∈ l.take i ++ l.drop (i + 1)) ∧
      (∀ x : Client, ∀ d ∈ l, d.email ≠ e → d ∈ l.set i x) := by
  intro l
  induction l with
  | nil => intro i c h; exact absurd h (by simp [find_client])
  | cons a l ih =>
    intro i c h
    unfold find_client at h
    by_cases ha : a.email = e
    · rw [if_pos ha] at h
      obtain ⟨rfl, rfl⟩ : i = 0 ∧ a = c := by
        cases h; exact ⟨rfl, rfl⟩
      refine ⟨ha, ?_, ?_⟩
      · intro d hd hne
        rcases List.mem_cons.mp hd with rfl | hm
        · exact absurd ha hne
        · simpa using hm
      · intro x d hd hne
        rcases List.mem_cons.mp hd with rfl | hm
        · exact absurd ha hne
        · exact List.mem_cons_of_mem _ hm
    · rw [if_neg ha] at h
      cases hf : find_client l e with
      | none => rw [hf] at h; exact absurd h (by simp)
      | some p =>
        rw [hf] at h
        obtain ⟨i', c'⟩ := p
        obtain ⟨rfl, rfl⟩ : i = i' + 1 ∧ c' = c := by
          simp only [Option.map] at h
          cases h; exact ⟨rfl, rfl⟩
        obtain ⟨hc, hkeep, hset⟩ := ih i' c' hf
        refine ⟨hc, ?_, ?_⟩
        · intro d hd hne
          rcases List.mem_cons.mp hd with rfl | hm
          · exact List.mem_cons_self _ _
          · exact List.mem_cons_of_mem _ (hkeep d hm hne)
        · intro x d hd hne
          rcases List.mem_cons.mp hd with rfl | hm
          · exact List.mem_cons_self _ _
          · exact List.mem_cons_of_mem _ (hset x d hm hne)

theorem extras_fold_char (sk : List (Int × String)) :
    ∀ (l : List XClient) (acc : List ExtraItem),
      l.foldl (fun acc c => if (c.tid, c.name) ∈ sk then acc
        else acc ++ [⟨c.tid, c.name, c.uuid⟩]) acc
      = acc ++ (l.filter (fun c => decide ((c.tid, c.name) ∉ sk))).map
          (fun c => ⟨c.tid, c.name, c.uuid⟩) := by
  intro l
  induction l with
  | nil => intro acc; simp
  | cons c l ih =>
    intro acc
    simp only [List.foldl_cons]
    by_cases hm : (c.tid, c.name) ∈ sk
    · rw [if_pos hm, ih, List.filter_cons_of_neg (by simp [hm])]
    · rw [if_neg hm, ih, List.filter_cons_of_pos (by simp [hm]), List.map_cons]
      simp [List.append_assoc]

/-- C4: no reconciliation or repair operation ever mutates or deletes a live
tunnel-engine client whose tag does not match the bot naming convention
(`<digits>-<name>`): classification puts every non-bot live entry in the
read-only `foreign` list and derives `only_in_xray` (extra) items only from
bot-owned entries; `_find_xray_bot_client` — through which every repair
resolves its live target — only ever returns bot-owned entries; and each
live-document mutation (remove / suspend / resume / ensure) targets one
bot-formed tag, so a client with a non-bot tag is still present, unchanged,
in the resulting document. -/
theorem foreign_entries_never_touched
    (st : BotState) (xlist : List XClient) (tid : Int) (name : String)
    (uuidv : String) (fl : Option String) (clients : List Client) :
    ((sync_collect st xlist).foreign
        = xlist.filter (fun c => decide (c.source ≠ "bot")))
    ∧ (∀ e ∈ (sync_collect st xlist).only_in_xray,
        ∃ c ∈ xlist, c.source = "bot" ∧ e.tid = c.tid ∧ e.name = c.name ∧
          e.uuid = c.uuid)
    ∧ (∀ c, find_xray_bot_client xlist tid name = some c →
        c.source = "bot" ∧ c ∈ xlist)
    ∧ (0 ≤ tid → ∀ d ∈ clients, is_bot_email d.email = false →
        d ∈ (services_remove_user_by_name clients tid name).2
        ∧ d ∈ (suspend_user_by_name clients tid name).clients
        ∧ d ∈ (resume_user_by_name clients tid name uuidv fl).clients
        ∧ d ∈ (ensure_user_uuid_flow clients tid name uuidv fl).2) := by
  refine ⟨?_, ?_, ?_, ?_⟩
  · simp only [sync_collect, foldl_users_char]
  · intro e he
    simp only [sync_collect, extras_fold_char, List.nil_append] at he
    obtain ⟨c, hc, rfl⟩ := List.mem_map.mp he
    have hcf := List.mem_filter.mp hc
    have hcb := List.mem_filter.mp hcf.1
    exact ⟨c, hcb.1, of_decide_eq_true hcb.2, rfl, rfl, rfl⟩
  · intro c hfind
    have hp := List.find?_some hfind
    have hmem := List.mem_of_find?_eq_some hfind
    simp only [Bool.and_eq_true, decide_eq_true_eq] at hp
    exact ⟨hp.1.1, hmem⟩
  · intro htid d hd hbot
    have hne : d.email ≠ emailTag tid name := by
      intro heq
      rw [heq, is_bot_email_emailTag tid name htid] at hbot
      simp at hbot
    refine ⟨?_, ?_, ?_, ?_⟩
    · simp only [services_remove_user_by_name]
      by_cases hlen :
          (clients.filter (fun c => c.email ≠ emailTag tid name)).length
            = clients.length
      · rw [if_pos hlen]; exact hd
      · rw [if_neg hlen]
        exact List.mem_filter.mpr ⟨hd, by simpa using hne⟩
    · simp only [suspend_user_by_name]
      cases hf : find_client clients (emailTag tid name) with
      | none => exact hd
      | some p =>
        obtain ⟨i, c⟩ := p
        obtain ⟨_, hkeep, _⟩ := find_client_keep _ clients i c hf
        exact hkeep d hd hne
    · simp only [resume_user_by_name]
      cases hf : find_client clients (emailTag tid name) with
      | none => exact List.mem_append_left _ hd
      | some p => exact hd
    · simp only [ensure_user_uuid_flow]
      cases hf : find_client clients (emailTag tid name) with
      | none => exact List.mem_append_left _ hd
      | some p =>
        obtain ⟨i, c⟩ := p
        obtain ⟨_, _, hset⟩ := find_client_keep _ clients i c hf
        exact hset _ d hd hne

/-- Witness for C4: a live client with a non-bot tag survives every
mutating operation unchanged. -/
theorem foreign_entries_never_touched_w :
    (⟨"id0", none, "extTag"⟩ : Client)
        ∈ (services_remove_user_by_name [⟨"id0", none, "extTag"⟩] 5 "n").2
    ∧ (⟨"id0", none, "extTag"⟩ : Client)
        ∈ (suspend_user_by_name [⟨"id0", none, "extTag"⟩] 5 "n").clients
    ∧ (⟨"id0", none, "extTag"⟩ : Client)
        ∈ (resume_user_by_name [⟨"id0", none, "extTag"⟩] 5 "n" "u" none).clients
    ∧ (⟨"id0", none, "extTag"⟩ : Client)
        ∈ (ensure_user_uuid_flow [⟨"id0", none, "extTag"⟩] 5 "n" "u" none).2 :=
  (foreign_entries_never_touched ⟨[]⟩ [] 5 "n" "u" none
      [⟨"id0", none, "extTag"⟩]).2.2.2 (by decide) _ (by decide) (by decide)

/-- Raw `addInfo` of one xray clientsTable record as read from disk: an
outer `none` means the key is missing; for the nullable fields the inner
`none` models JSON `null`. -/
structure XAddInfoRaw where
  type : Option String := none
  uuid : Option String := none
  owner_tid : Option (Option Int) := none
  email : Option (Option String) := none
  created_at : Option String := none
  deleted : Option Bool := none
  deleted_at : Option (Option String) := none
  source : Option String := none
  notes : Option String := none
deriving DecidableEq, Repr, Inhabited

/-- One raw xray clientsTable record (array shape; the keyed-map shape is
converted to this shape up front by the normalizer, `clientId` modelled
present). -/
structure XRawRec where
  clientId : String
  clientName : Option String := none
  creationDate : Option String := none
  addInfo : XAddInfoRaw := {}
deriving DecidableEq, Repr, Inhabited

/-- The `addInfo` field set guaranteed by `repo_xray._normalize_to_list`. -/
structure XAddInfo where
  type : String
  uuid : String
  owner_tid : Option Int
  email : Option String
  created_at : String
  deleted : Bool
  deleted_at : Option String
  source : String
  notes : String
deriving DecidableEq, Repr, Inhabited

/-- One normalized xray clientsTable record. -/
structure XNormRec where
  clientId : String
  clientName : String
  creationDate : String
  addInfo : XAddInfo
deriving DecidableEq, Repr, Inhabited

/-- Model of the per-record body of `repo_xray._normalize_to_list`:
synthesizes `clientName`/`creationDate` and the full `addInfo` field set;
`nowIso`/`ctime` stand for `_now_iso()`/`_ctime_like()`. -/
def normalizeXrayRec (kind nowIso ctime : String) (r : XRawRec) : XNormRec :=
  let emailVal := r.addInfo.email.getD none
  { clientId := r.clientId
    clientName := r.clientName.getD
      (match emailVal with
       | some e =>
         if e = "" then "XRAY-" ++ (⟨r.clientId.data.take 8⟩ : String) else e
       | none => "XRAY-" ++ (⟨r.clientId.data.take 8⟩ : String))
    creationDate := r.creationDate.getD ctime
    addInfo :=
      { type := r.addInfo.type.getD kind
        uuid := r.addInfo.uuid.getD r.clientId
        owner_tid := r.addInfo.owner_tid.getD none
        email := emailVal
        created_at := r.addInfo.created_at.getD nowIso
        deleted := r.addInfo.deleted.getD false
        deleted_at := r.addInfo.deleted_at.getD none
        source := r.addInfo.source.getD "bot"
        notes := r.addInfo.notes.getD "" } }

/-- Model of `repo_xray._normalize_to_list` over the whole table. -/
def normalize_to_list (kind nowIso ctime : String) (raw : List XRawRec) :
    List XNormRec :=
  raw.map (normalizeXrayRec kind nowIso ctime)

/-- Raw `addInfo` of one AWG clientsTable record. -/
structure AAddInfoRaw where
  type : Option String := none
  uuid : Option String := none
  owner_tid : Option (Option Int) := none
  email : Option (Option String) := none
  created_at : Option String := none
  source : Option String := none
  notes : Option String := none
deriving DecidableEq, Repr, Inhabited

/-- One raw AWG clientsTable record (key material and address fields of
`userData` are not read by the embedded operations and are omitted). -/
structure ARawRec where
  clientId : String
  clientName : Option String := none
  creationDate : Option String := none
  addInfo : AAddInfoRaw := {}
deriving DecidableEq, Repr, Inhabited

/-- The `addInfo` field set guaranteed by `repo_awg._read_clients_table`. -/
structure AAddInfo where
  type : String
  uuid : String
  owner_tid : Option Int
  email : Option String
  created_at : String
  source : String
  notes : String
deriving DecidableEq, Repr, Inhabited

/-- One normalized AWG clientsTable record. -/
structure ANormRec where
  clientId : String
  clientName : String
  creationDate : String
  addInfo : AAddInfo
deriving DecidableEq, Repr, Inhabited

/-- Model of the per-record normalization of `repo_awg._read_clients_table`. -/
def normalizeAwgRec (nowIso ctime : String) (r : ARawRec) : ANormRec :=
  { clientId := r.clientId
    clientName := r.clientName.getD
      ("AWG-" ++ (⟨r.clientId.data.take 8⟩ : String))
    creationDate := r.creationDate.getD ctime
    addInfo :=
      { type := r.addInfo.type.getD "awg"
        uuid := r.addInfo.uuid.getD r.clientId
        owner_tid := r.addInfo.owner_tid.getD none
        email := r.addInfo.email.getD none
        created_at := r.addInfo.created_at.getD nowIso
        source := r.addInfo.source.getD "bot"
        notes := r.addInfo.notes.getD "" } }

/-- Model of the normalization pass of `repo_awg._read_clients_table`. -/
def read_clients_table (nowIso ctime : String) (raw : List ARawRec) :
    List ANormRec :=
  raw.map (normalizeAwgRec nowIso ctime)

/-- C9: both engines' client-table read paths return records with a full
`addInfo` field set (by construction of the normalized record type); in
particular a record whose `addInfo` lacks a `uuid` key is assigned its
`clientId` as uuid, a record whose `addInfo` lacks a provenance key is
assigned `source = "bot"`, and recorded values are preserved — so legacy
records with no recorded provenance are thereafter bot-owned for every
operation filtering on `source`. -/
theorem normalization_defaults_uuid_and_source
    (kind nowIso ctime : String) (r : XRawRec) (ra : ARawRec) :
    ((r.addInfo.uuid = none →
        (normalizeXrayRec kind nowIso ctime r).addInfo.uuid = r.clientId)
      ∧ (∀ u, r.addInfo.uuid = some u →
        (normalizeXrayRec kind nowIso ctime r).addInfo.uuid = u)
      ∧ (r.addInfo.source = none →
        (normalizeXrayRec kind nowIso ctime r).addInfo.source = "bot")
      ∧ (∀ sv, r.addInfo.source = some sv →
        (normalizeXrayRec kind nowIso ctime r).addInfo.source = sv))
    ∧ ((ra.addInfo.uuid = none →
        (normalizeAwgRec nowIso ctime ra).addInfo.uuid = ra.clientId)
      ∧ (∀ u, ra.addInfo.uuid = some u →
        (normalizeAwgRec nowIso ctime ra).addInfo.uuid = u)
      ∧ (ra.addInfo.source = none →
        (normalizeAwgRec nowIso ctime ra).addInfo.source = "bot")
      ∧ (∀ sv, ra.addInfo.source = some sv →
        (normalizeAwgRec nowIso ctime ra).addInfo.source = sv)) := by
  refine ⟨⟨?_, ?_, ?_, ?_⟩, ⟨?_, ?_, ?_, ?_⟩⟩ <;>
    first
    | (intro h; simp [normalizeXrayRec, normalizeAwgRec, h])
    | (intro v h; simp [normalizeXrayRec, normalizeAwgRec, h])

/-- Witness for C9 at a concrete legacy record with no uuid and no
provenance recorded. -/
theorem normalization_defaults_uuid_and_source_w :
    ((normalizeXrayRec "xray" "t1" "t2"
        { clientId := "cid-xr" }).addInfo.uuid = "cid-xr"
      ∧ (normalizeXrayRec "xray" "t1" "t2"
        { clientId := "cid-xr" }).addInfo.source = "bot")
    ∧ ((normalizeAwgRec "t1" "t2"
        { clientId := "cid-awg" }).addInfo.uuid = "cid-awg"
      ∧ (normalizeAwgRec "t1" "t2"
        { clientId := "cid-awg" }).addInfo.source = "bot") :=
  ⟨⟨(normalization_defaults_uuid_and_source "xray" "t1" "t2"
        { clientId := "cid-xr" } { clientId := "cid-awg" }).1.1 rfl,
    (normalization_defaults_uuid_and_source "xray" "t1" "t2"
        { clientId := "cid-xr" } { clientId := "cid-awg" }).1.2.2.1 rfl⟩,
   ⟨(normalization_defaults_uuid_and_source "xray" "t1" "t2"
        { clientId := "cid-xr" } { clientId := "cid-awg" }).2.1 rfl,
    (normalization_defaults_uuid_and_source "xray" "t1" "t2"
        { clientId := "cid-xr" } { clientId := "cid-awg" }).2.2.2.1 rfl⟩⟩

/-- The profile row shape produced by `repo_xray.list_profiles`. -/
structure XProfileRow where
  uuid : String
  clientId : String
  name : String
  email : Option String
  owner_tid : Option Int
  deleted : Bool
deriving DecidableEq, Repr, Inhabited

/-- The row projection of `repo_xray.list_profiles` (`uuid` falls back to
`clientId` when empty). -/
def xrayProfileRow (n : XNormRec) : XProfileRow :=
  { uuid := if n.addInfo.uuid = "" then n.clientId else n.addInfo.uuid
    clientId := n.clientId
    name := n.clientName
    email := n.addInfo.email
    owner_tid := n.addInfo.owner_tid
    deleted := n.addInfo.deleted }

/-- Model of `repo_xray.list_profiles`: the normalized table projected to
profile rows. -/
def list_profiles_xray (nowIso ctime : String) (raw : List XRawRec) :
    List XProfileRow :=
  (normalize_to_list "xray" nowIso ctime raw).map xrayProfileRow

/-- The profile row shape produced by `repo_awg.list_profiles` (the
runtime `allowed_ips` column is not read by the embedded operations). -/
structure AProfileRow where
  uuid : String
  clientId : String
  name : String
  owner_tid : Option Int
deriving DecidableEq, Repr, Inhabited

/-- Model of `repo_awg.list_profiles` restricted to the fields the embedded
operations read. -/
def list_profiles_awg (nowIso ctime : String) (raw : List ARawRec) :
    List AProfileRow :=
  (read_clients_table nowIso ctime raw).map (fun n =>
    { uuid := if n.addInfo.uuid = "" then n.clientId else n.addInfo.uuid
      clientId := n.clientId
      name := n.clientName
      owner_tid := n.addInfo.owner_tid })

/-- Model of `repo_xray.find_user`: first non-deleted profile of the owner
with the exact stripped name. -/
def repo_find_user (nowIso ctime : String) (raw : List XRawRec) (tg_id : Int)
    (name : String) : Option XProfileRow :=
  let name1 := pyStrip name
  if name1 = "" then none
  else (list_profiles_xray nowIso ctime raw).find? (fun p =>
    decide (p.owner_tid = some tg_id) && decide (p.name = name1) && !p.deleted)

/-- Model of `repo_xray._name_in_use_for_owner`: compares the candidate's
collapsed, lowercased name against each non-deleted profile's stripped,
lowercased name. -/
def name_in_use_for_owner_xray (nowIso ctime : String) (raw : List XRawRec)
    (owner_tid : Int) (name : String) : Bool :=
  if name = "" then false
  else
    let name_norm := pyLower (collapseWs name)
    (list_profiles_xray nowIso ctime raw).any (fun p =>
      decide (p.owner_tid = some owner_tid) && !p.deleted &&
        decide (pyLower (pyStrip p.name) = name_norm))

/-- Model of `repo_awg._name_in_use_for_owner` (the AWG variant does not
skip records flagged deleted). -/
def name_in_use_for_owner_awg (nowIso ctime : String) (raw : List ARawRec)
    (owner_tid : Int) (name : String) : Bool :=
  if name = "" then false
  else
    let name_norm := pyLower (collapseWs name)
    (list_profiles_awg nowIso ctime raw).any (fun p =>
      decide (p.owner_tid = some owner_tid) &&
        decide (pyLower (pyStrip p.name) = name_norm))

/-- A fully-normalized record written back as raw (what
`repo_xray.add_user` persists for the pre-existing rows). -/
def toRawXray (n : XNormRec) : XRawRec :=
  { clientId := n.clientId
    clientName := some n.clientName
    creationDate := some n.creationDate
    addInfo :=
      { type := some n.addInfo.type
        uuid := some n.addInfo.uuid
        owner_tid := some n.addInfo.owner_tid
        email := some n.addInfo.email
        created_at := some n.addInfo.created_at
        deleted := some n.addInfo.deleted
        deleted_at := some n.addInfo.deleted_at
        source := some n.addInfo.source
        notes := some n.addInfo.notes } }

/-- The fresh record `repo_xray.add_user` appends (clientId = uuid). -/
def newXrayRecord (tg_id : Int) (name1 : String) (freshUuid nowIso ctime : String) :
    XRawRec :=
  { clientId := freshUuid
    clientName := some (if name1 = "" then
      "XRAY-" ++ (⟨freshUuid.data.take 8⟩ : String) else name1)
    creationDate := some ctime
    addInfo :=
      { type := some "xray"
        uuid := some freshUuid
        owner_tid := some (some tg_id)
        email := some (some (intDec tg_id ++ "-" ++
          (⟨(pyStrip name1).data.map (fun c => if c = ' ' then '_' else c)⟩ : String)))
        created_at := some nowIso
        deleted := some false
        deleted_at := some none
        source := some "bot"
        notes := some "" } }

/-- Model of `repo_xray.add_user`: strips the name, rejects a duplicate
name for the owner (the ValueError is modelled as the `NameConflict` error
kind), otherwise appends the fresh record to the normalized table and
returns the new uuid with the written table. -/
def repo_add_user (nowIso ctime : String) (raw : List XRawRec) (tg_id : Int)
    (name : String) (freshUuid : String) :
    Except String (String × List XRawRec) :=
  let name1 := pyStrip name
  if name_in_use_for_owner_xray nowIso ctime raw tg_id name1 then
    .error "NameConflict"
  else
    .ok (freshUuid,
      (normalize_to_list "xray" nowIso ctime raw).map toRawXray ++
        [newXrayRecord tg_id name1 freshUuid nowIso ctime])

/-- C7 counterexample: the conflict check collapses whitespace runs only in
the candidate name, while existing names are merely stripped; so after
creating `"a  b"` (internal double space), creating `"a  b "` — the same
name up to surrounding whitespace — is NOT rejected: the second create
succeeds even though a non-deleted record of the same owner with the same
whitespace-collapsed, case-insensitive name exists. -/
theorem name_conflict_check_misses_whitespace_runs :
    pyStrip "a  b " = pyStrip "a  b"
    ∧ pyLower (collapseWs "a  b ") = pyLower (collapseWs "a  b")
    ∧ repo_add_user "t1" "t2" [] 1 "a  b" "u1"
        = .ok ("u1", [newXrayRecord 1 "a  b" "u1" "t1" "t2"])
    ∧ (repo_add_user "t1" "t2" [newXrayRecord 1 "a  b" "u1" "t1" "t2"]
        1 "a  b " "u2").isOk = true := by
  refine ⟨by decide, by decide, by rfl, by decide⟩

/-- C7 (amended): creation rejects with `NameConflict` exactly when a
non-deleted record of the same owner exists whose *stripped*, lowercased
name equals the candidate's *collapsed*, lowercased name (for the AWG
store, records flagged deleted participate too). Names that differ only by
surrounding whitespace or case therefore conflict whenever the stored name
has no internal whitespace runs. -/
theorem name_conflict_check_amended (nowIso ctime : String)
    (raw : List XRawRec) (rawA : List ARawRec) (owner : Int) (name : String) :
    (name ≠ "" →
      (name_in_use_for_owner_xray nowIso ctime raw owner name = true ↔
        ∃ p ∈ list_profiles_xray nowIso ctime raw,
          p.owner_tid = some owner ∧ p.deleted = false ∧
            pyLower (pyStrip p.name) = pyLower (collapseWs name)))
    ∧ (name ≠ "" →
      (name_in_use_for_owner_awg nowIso ctime rawA owner name = true ↔
        ∃ p ∈ list_profiles_awg nowIso ctime rawA,
          p.owner_tid = some owner ∧
            pyLower (pyStrip p.name) = pyLower (collapseWs name)))
    ∧ (∀ freshUuid, pyStrip name ≠ "" →
      (∃ p ∈ list_profiles_xray nowIso ctime raw,
          p.owner_tid = some owner ∧ p.deleted = false ∧
            pyLower (pyStrip p.name) = pyLower (collapseWs (pyStrip name))) →
      repo_add_user nowIso ctime raw owner name freshUuid
        = .error "NameConflict") := by
  have hx : ∀ nm : String, nm ≠ "" →
      (name_in_use_for_owner_xray nowIso ctime raw owner nm = true ↔
        ∃ p ∈ list_profiles_xray nowIso ctime raw,
          p.owner_tid = some owner ∧ p.deleted = false ∧
            pyLower (pyStrip p.name) = pyLower (collapseWs nm)) := by
    intro nm hne
    unfold name_in_use_for_owner_xray
    rw [if_neg hne]
    simp only [List.any_eq_true, Bool.and_eq_true, decide_eq_true_eq,
      Bool.not_eq_true']
    constructor
    · rintro ⟨p, hp, ⟨h1, h2⟩, h3⟩
      exact ⟨p, hp, h1, h2, h3⟩
    · rintro ⟨p, hp, h1, h2, h3⟩
      exact ⟨p, hp, ⟨h1, h2⟩, h3⟩
  refine ⟨hx name, ?_, ?_⟩
  · intro hne
    unfold name_in_use_for_owner_awg
    rw [if_neg hne]
    simp only [List.any_eq_true, Bool.and_eq_true, decide_eq_true_eq]
  · intro freshUuid hne hex
    unfold repo_add_user
    rw [if_pos ((hx (pyStrip name) hne).mpr hex)]

/-- Witness for the amended C7: a candidate differing from the stored name
only by case and surrounding whitespace is rejected. -/
theorem name_conflict_check_amended_w :
    repo_add_user "t1" "t2" [newXrayRecord 1 "ph" "u1" "t1" "t2"]
        1 "PH " "u9" = .error "NameConflict" :=
  (name_conflict_check_amended "t1" "t2"
      [newXrayRecord 1 "ph" "u1" "t1" "t2"] [] 1 "PH ").2.2 "u9"
    (by decide) (by decide)

/-- Dict lookup `st["users"].get(str(tid))`. -/
def usersLookup (st : BotState) (k : String) : Option UserRec :=
  (st.users.find? (fun kv => decide (kv.1 = k))).map (fun kv => kv.2)

/-- Model of `features/sync/apply.py` `_get_state_profile`: the user record
and the first active xray profile with the exact name. -/
def get_state_profile (st : BotState) (tid : Int) (name : String) :
    Option UserRec × Option StProfile :=
  match usersLookup st (intDec tid) with
  | none => (none, none)
  | some urec =>
    (some urec, (profiles_active urec).find? (fun p =>
      decide (p.ptype = "xray") && decide (p.name = name)))

/-- Replace the first list element satisfying `q` by its image under `f`. -/
def updateFirstProfile : List StProfile → (StProfile → Bool) →
    (StProfile → StProfile) → List StProfile
  | [], _, _ => []
  | p :: ps, q, f => if q p then f p :: ps else updateFirstProfile ps q f |>.cons p

/-- The profile selector used by `_get_state_profile` over the raw profile
list: non-deleted, xray-typed, exact name. -/
def stQuery (name : String) (p : StProfile) : Bool :=
  !p.deleted && (decide (p.ptype = "xray") && decide (p.name = name))

/-- The registry-side effect of a successful repair: record the returned
uuid and the sync timestamp on the profile. -/
def recordUuid (freshU nowState : String) (p : StProfile) : StProfile :=
  { p with uuid := some freshU, last_xray_sync_at := some nowState }

/-- The effect of the registry update on the owning user record. -/
def updUser (name freshU nowState : String) (u : UserRec) : UserRec :=
  { u with profiles :=
      updateFirstProfile u.profiles (stQuery name) (recordUuid freshU nowState) }

/-- The in-place mutation of the profile found by `_get_state_profile`
followed by `save_state`: rewrites the first active xray profile named
`name` of user `str(tid)`. -/
def updateStateProfile (st : BotState) (tid : Int) (name : String)
    (f : StProfile → StProfile) : BotState :=
  ⟨st.users.map (fun kv =>
    if kv.1 = intDec tid then
      (kv.1, { kv.2 with profiles := updateFirstProfile kv.2.profiles (stQuery name) f })
    else kv)⟩

/-- Result of one `sync_absent_apply_one` run: the `(ok, reason)` pair and
the registry/table state afterwards. -/
structure AbsentApplyResult where
  ok : Bool
  reason : String
  st : BotState
  table : List XRawRec
deriving DecidableEq, Repr

/-- Model of `features/sync/apply.py` `sync_absent_apply_one`: repairs an
`only_in_state` profile by creating the engine-side client, recording the
returned uuid back into the registry profile; fails without touching
anything when the user/profile is missing, the profile is suspended, the
live check finds the client, or the add itself fails. -/
def sync_absent_apply_one (st : BotState) (table : List XRawRec) (tid : Int)
    (name : String) (freshUuid nowIso ctime nowState : String) :
    AbsentApplyResult :=
  match get_state_profile st tid name with
  | (none, _) => ⟨false, "user_not_in_state", st, table⟩
  | (some _, none) => ⟨false, "profile_not_in_state", st, table⟩
  | (some _, some pr) =>
    if pr.suspended then ⟨false, "profile_suspended", st, table⟩
    else if (repo_find_user nowIso ctime table tid name).isSome then
      ⟨false, "already_present", st, table⟩
    else
      match repo_add_user nowIso ctime table tid name freshUuid with
      | .error _ => ⟨false, "xray_add_fail", st, table⟩
      | .ok (res_uuid, tableNew) =>
        let stNew := updateStateProfile st tid name (fun p =>
          { (if res_uuid ≠ "" then { p with uuid := some res_uuid } else p) with
              last_xray_sync_at := some nowState })
        ⟨true, "ok", stNew, tableNew⟩

theorem normalizeXrayRec_toRaw (kind nowIso ctime : String) (n : XNormRec) :
    normalizeXrayRec kind nowIso ctime (toRawXray n) = n := rfl

theorem find?_append_none {α} (p : α → Bool) :
    ∀ l1 l2 : List α, l1.find? p = none → (l1 ++ l2).find? p = l2.find? p := by
  intro l1
  induction l1 with
  | nil => intro l2 _; rfl
  | cons a l ih =>
    intro l2 h
    simp only [List.find?_cons] at h
    cases hp : p a with
    | true =>
      rw [hp] at h
      exact absurd h (by simp)
    | false =>
      rw [hp] at h
      simp only [List.cons_append, List.find?_cons, hp]
      exact ih l2 h

theorem find?_filter_bool {α} (b q : α → Bool) :
    ∀ l : List α, (l.filter b).find? q = l.find? (fun x => b x && q x) := by
  intro l
  induction l with
  | nil => rfl
  | cons a l ih =>
    cases hb : b a with
    | true =>
      rw [List.filter_cons_of_pos hb]
      simp only [List.find?_cons, hb, Bool.true_and]
      exact (by cases hq : q a <;> simp [hq, ih])
    | false =>
      rw [List.filter_cons_of_neg (by simp [hb])]
      simp only [List.find?_cons, hb, Bool.false_and]
      exact ih

theorem updateFirstProfile_find (q : StProfile → Bool) (f : StProfile → StProfile) :
    ∀ (ps : List StProfile) (pr : StProfile), ps.find? q = some pr →
      q (f pr) = true →
      (updateFirstProfile ps q f).find? q = some (f pr) := by
  intro ps
  induction ps with
  | nil => intro pr h _; exact absurd h (by simp)
  | cons p ps ih =>
    intro pr h hf
    simp only [List.find?_cons] at h
    cases hq : q p with
    | true =>
      rw [hq] at h
      simp only [Option.some.injEq] at h
      subst h
      simp only [updateFirstProfile, if_pos hq, List.find?_cons, hf]
    | false =>
      rw [hq] at h
      simp only [updateFirstProfile, if_neg (by simp [hq] : ¬ q p = true)]
      simp only [List.find?_cons, hq]
      exact ih pr h hf

theorem find_map_upd (k : String) (upd : UserRec → UserRec) :
    ∀ (us : List (String × UserRec)) (u : UserRec),
      (us.find? (fun kv => decide (kv.1 = k))).map (fun kv => kv.2) = some u →
      ((us.map (fun kv => if kv.1 = k then (kv.1, upd kv.2) else kv)).find?
        (fun kv => decide (kv.1 = k))).map (fun kv => kv.2) = some (upd u) := by
  intro us
  induction us with
  | nil => intro u h; exact absurd h (by simp)
  | cons kv us ih =>
    intro u h
    by_cases hk : kv.1 = k
    · simp only [List.find?_cons, decide_eq_true hk] at h
      have hu : kv.2 = u := by simpa using h
      subst hu
      simp only [List.map_cons, if_pos hk, List.find?_cons, decide_eq_true hk]
      rfl
    · simp only [List.find?_cons, decide_eq_false hk] at h
      simp only [List.map_cons, if_neg hk, List.find?_cons, decide_eq_false hk]
      exact ih u h

theorem list_profiles_after_add (a b c d : String) (table : List XRawRec)
    (rec : XRawRec) :
    list_profiles_xray a b
        ((normalize_to_list "xray" c d table).map toRawXray ++ [rec])
      = list_profiles_xray c d table
        ++ [xrayProfileRow (normalizeXrayRec "xray" a b rec)] := by
  simp [list_profiles_xray, normalize_to_list, List.map_append, List.map_map,
    Function.comp, normalizeXrayRec_toRaw]

theorem new_record_row_matches (tid : Int) (name freshU nowIso ctime a b : String)
    (hne : pyStrip name ≠ "") :
    (decide ((xrayProfileRow (normalizeXrayRec "xray" a b
        (newXrayRecord tid (pyStrip name) freshU nowIso ctime))).owner_tid
          = some tid) &&
      decide ((xrayProfileRow (normalizeXrayRec "xray" a b
        (newXrayRecord tid (pyStrip name) freshU nowIso ctime))).name
          = pyStrip name) &&
      !(xrayProfileRow (normalizeXrayRec "xray" a b
        (newXrayRecord tid (pyStrip name) freshU nowIso ctime))).deleted)
      = true := by
  simp [newXrayRecord, normalizeXrayRec, xrayProfileRow, hne]

/-- C2: `sync_absent_apply_one` fails with `Suspended` when the registry
profile is suspended (checked before anything else, so suspension is
authoritative), fails with `AlreadyPresent` when the live check finds the
client, and otherwise creates the client and records the returned uuid back
into the registry profile; calling it twice on a non-suspended absent entry
succeeds the first time and returns `AlreadyPresent` the second, leaving
exactly one live client for the key and both stores unchanged by the second
call. -/
theorem repair_absent_behaviour
    (st : BotState) (table : List XRawRec) (tid : Int) (name : String)
    (urec : UserRec) (pr : StProfile)
    (freshU freshU2 nowIso ctime nowState nowIso2 ctime2 nowState2 : String) :
    (get_state_profile st tid name = (some urec, some pr) →
      pr.suspended = true →
      sync_absent_apply_one st table tid name freshU nowIso ctime nowState
        = ⟨false, "profile_suspended", st, table⟩)
    ∧ (get_state_profile st tid name = (some urec, some pr) →
      pr.suspended = false →
      (repo_find_user nowIso ctime table tid name).isSome = true →
      sync_absent_apply_one st table tid name freshU nowIso ctime nowState
        = ⟨false, "already_present", st, table⟩)
    ∧ (get_state_profile st tid name = (some urec, some pr) →
      pr.suspended = false →
      repo_find_user nowIso ctime table tid name = none →
      name_in_use_for_owner_xray nowIso ctime table tid (pyStrip name) = false →
      pyStrip name ≠ "" → freshU ≠ "" →
      sync_absent_apply_one st table tid name freshU nowIso ctime nowState
          = ⟨true, "ok",
            updateStateProfile st tid name (recordUuid freshU nowState),
            (normalize_to_list "xray" nowIso ctime table).map toRawXray ++
              [newXrayRecord tid (pyStrip name) freshU nowIso ctime]⟩
      ∧ (get_state_profile
            (updateStateProfile st tid name (recordUuid freshU nowState))
            tid name).2 = some (recordUuid freshU nowState pr)
      ∧ (recordUuid freshU nowState pr).uuid = some freshU
      ∧ sync_absent_apply_one
            (updateStateProfile st tid name (recordUuid freshU nowState))
            ((normalize_to_list "xray" nowIso ctime table).map toRawXray ++
              [newXrayRecord tid (pyStrip name) freshU nowIso ctime])
            tid name freshU2 nowIso2 ctime2 nowState2
          = ⟨false, "already_present",
            updateStateProfile st tid name (recordUuid freshU nowState),
            (normalize_to_list "xray" nowIso ctime table).map toRawXray ++
              [newXrayRecord tid (pyStrip name) freshU nowIso ctime]⟩
      ∧ (list_profiles_xray nowIso2 ctime2
            ((normalize_to_list "xray" nowIso ctime table).map toRawXray ++
              [newXrayRecord tid (pyStrip name) freshU nowIso ctime])).countP
            (fun p => decide (p.owner_tid = some tid) &&
              decide (p.name = pyStrip name) && !p.deleted) = 1) := by
  refine ⟨?_, ?_, ?_⟩
  · intro hgp hsusp
    simp only [sync_absent_apply_one, hgp, hsusp, if_true]
  · intro hgp hsusp hfound
    simp only [sync_absent_apply_one, hgp, hsusp, hfound, Bool.false_eq_true,
      if_false, if_true]
  · intro hgp hsusp hfind hniu hne hfresh
    have hparts : usersLookup st (intDec tid) = some urec ∧
        (profiles_active urec).find? (fun p =>
          decide (p.ptype = "xray") && decide (p.name = name)) = some pr := by
      unfold get_state_profile at hgp
      cases hu : usersLookup st (intDec tid) with
      | none => rw [hu] at hgp; exact absurd hgp (by simp)
      | some u0 =>
        rw [hu] at hgp
        simp only [Prod.mk.injEq, Option.some.injEq] at hgp
        refine ⟨?_, ?_⟩
        · rw [hgp.1]
        · rw [← hgp.1]; exact hgp.2
    obtain ⟨hul, hfp⟩ := hparts
    have hfind2 : (list_profiles_xray nowIso ctime table).find?
        (fun p => decide (p.owner_tid = some tid) &&
          decide (p.name = pyStrip name) && !p.deleted) = none := by
      simp only [repo_find_user] at hfind
      rw [if_neg hne] at hfind
      exact hfind
    have hfpraw : urec.profiles.find? (stQuery name) = some pr := by
      rw [show stQuery name = (fun x : StProfile =>
        (fun p : StProfile => !p.deleted) x &&
        (fun p : StProfile => decide (p.ptype = "xray") &&
          decide (p.name = name)) x) from rfl]
      rw [← find?_filter_bool (fun p : StProfile => !p.deleted)
        (fun p : StProfile => decide (p.ptype = "xray") &&
          decide (p.name = name)) urec.profiles]
      exact hfp
    have hqpr := List.find?_some hfpraw
    have hupd := updateFirstProfile_find (stQuery name)
      (recordUuid freshU nowState) urec.profiles pr hfpraw hqpr
    have hlook2 : usersLookup
        (updateStateProfile st tid name (recordUuid freshU nowState))
        (intDec tid) = some (updUser name freshU nowState urec) :=
      find_map_upd (intDec tid) (updUser name freshU nowState) st.users urec hul
    have hgp2 : get_state_profile
        (updateStateProfile st tid name (recordUuid freshU nowState)) tid name
        = (some (updUser name freshU nowState urec),
          some (recordUuid freshU nowState pr)) := by
      unfold get_state_profile
      rw [hlook2]
      simp only [profiles_active]
      rw [show (updUser name freshU nowState urec).profiles
        = updateFirstProfile urec.profiles (stQuery name)
          (recordUuid freshU nowState) from rfl]
      rw [find?_filter_bool (fun p : StProfile => !p.deleted)
        (fun p : StProfile => decide (p.ptype = "xray") &&
          decide (p.name = name))]
      rw [show (fun x : StProfile => (fun p : StProfile => !p.deleted) x &&
        (fun p : StProfile => decide (p.ptype = "xray") &&
          decide (p.name = name)) x) = stQuery name from rfl]
      rw [hupd]
    have hrows := list_profiles_after_add nowIso2 ctime2 nowIso ctime table
      (newXrayRecord tid (pyStrip name) freshU nowIso ctime)
    have hrowm := new_record_row_matches tid name freshU nowIso ctime
      nowIso2 ctime2 hne
    have hfound2 : (repo_find_user nowIso2 ctime2
        ((normalize_to_list "xray" nowIso ctime table).map toRawXray ++
          [newXrayRecord tid (pyStrip name) freshU nowIso ctime])
        tid name).isSome = true := by
      simp only [repo_find_user]
      rw [if_neg hne, hrows, find?_append_none _ _ _ hfind2]
      simp [List.find?_cons, hrowm]
    have hcall1 : sync_absent_apply_one st table tid name freshU nowIso ctime
        nowState
        = ⟨true, "ok",
          updateStateProfile st tid name (recordUuid freshU nowState),
          (normalize_to_list "xray" nowIso ctime table).map toRawXray ++
            [newXrayRecord tid (pyStrip name) freshU nowIso ctime]⟩ := by
      simp only [sync_absent_apply_one, hgp, hsusp, hfind, repo_add_user, hniu,
        Option.isSome_none, Bool.false_eq_true, if_false, hfresh, ne_eq,
        not_false_iff, if_true, recordUuid]
      rfl
    have hcall2 : sync_absent_apply_one
        (updateStateProfile st tid name (recordUuid freshU nowState))
        ((normalize_to_list "xray" nowIso ctime table).map toRawXray ++
          [newXrayRecord tid (pyStrip name) freshU nowIso ctime])
        tid name freshU2 nowIso2 ctime2 nowState2
        = ⟨false, "already_present",
          updateStateProfile st tid name (recordUuid freshU nowState),
          (normalize_to_list "xray" nowIso ctime table).map toRawXray ++
            [newXrayRecord tid (pyStrip name) freshU nowIso ctime]⟩ := by
      simp only [sync_absent_apply_one, hgp2, hfound2, if_true]
      have hsusp2 : (recordUuid freshU nowState pr).suspended = false := hsusp
      simp only [hsusp2, Bool.false_eq_true, if_false, if_true]
    have hcount : (list_profiles_xray nowIso2 ctime2
        ((normalize_to_list "xray" nowIso ctime table).map toRawXray ++
          [newXrayRecord tid (pyStrip name) freshU nowIso ctime])).countP
        (fun p => decide (p.owner_tid = some tid) &&
          decide (p.name = pyStrip name) && !p.deleted) = 1 := by
      rw [hrows, List.countP_append]
      have hz : (list_profiles_xray nowIso ctime table).countP
          (fun p => decide (p.owner_tid = some tid) &&
            decide (p.name = pyStrip name) && !p.deleted) = 0 := by
        rw [List.countP_eq_zero]
        intro a ha
        have := List.find?_eq_none.mp hfind2 a ha
        simpa using this
      rw [hz]
      simp [List.countP_cons, hrowm]
    refine ⟨hcall1, ?_, rfl, hcall2, hcount⟩
    rw [hgp2]

/-- Concrete registry profile used by the C2 witness. -/
def prW : StProfile := ⟨"ph", "xray", false, false, none, none, none⟩

/-- Concrete user record used by the C2 witness. -/
def urecW : UserRec := ⟨true, [prW]⟩

/-- Concrete registry state used by the C2 witness. -/
def stW : BotState := ⟨[("7", urecW)]⟩

/-- Witness for C2: a concrete non-suspended absent entry is repaired on
the first call and reported `already_present` on the second, with exactly
one live client created. -/
theorem repair_absent_behaviour_w :
    sync_absent_apply_one stW [] 7 "ph" "u-1" "t1" "t2" "t3"
        = ⟨true, "ok", updateStateProfile stW 7 "ph" (recordUuid "u-1" "t3"),
          (normalize_to_list "xray" "t1" "t2" []).map toRawXray ++
            [newXrayRecord 7 (pyStrip "ph") "u-1" "t1" "t2"]⟩
    ∧ (get_state_profile (updateStateProfile stW 7 "ph" (recordUuid "u-1" "t3"))
          7 "ph").2 = some (recordUuid "u-1" "t3" prW)
    ∧ (recordUuid "u-1" "t3" prW).uuid = some "u-1"
    ∧ sync_absent_apply_one
          (updateStateProfile stW 7 "ph" (recordUuid "u-1" "t3"))
          ((normalize_to_list "xray" "t1" "t2" []).map toRawXray ++
            [newXrayRecord 7 (pyStrip "ph") "u-1" "t1" "t2"])
          7 "ph" "u-2" "t4" "t5" "t6"
        = ⟨false, "already_present",
          updateStateProfile stW 7 "ph" (recordUuid "u-1" "t3"),
          (normalize_to_list "xray" "t1" "t2" []).map toRawXray ++
            [newXrayRecord 7 (pyStrip "ph") "u-1" "t1" "t2"]⟩
    ∧ (list_profiles_xray "t4" "t5"
          ((normalize_to_list "xray" "t1" "t2" []).map toRawXray ++
            [newXrayRecord 7 (pyStrip "ph") "u-1" "t1" "t2"])).countP
          (fun p => decide (p.owner_tid = some 7) &&
            decide (p.name = pyStrip "ph") && !p.deleted) = 1 :=
  (repair_absent_behaviour stW [] 7 "ph" urecW prW "u-1" "u-2" "t1" "t2" "t3"
      "t4" "t5" "t6").2.2 (by decide) (by decide) (by decide) (by decide)
    (by decide) (by decide)

/-- An IPv4 subnet: base address (as a 32-bit number) and prefix length.
`ipaddress.ip_network(..., strict=False)` masks the host bits, which
`network` reproduces. -/
structure Subnet where
  base : Nat
  prefixlen : Nat
deriving DecidableEq, Repr

/-- Number of addresses in the subnet block. -/
def blockSize (s : Subnet) : Nat := 2 ^ (32 - s.prefixlen)

/-- The masked network address. -/
def network (s : Subnet) : Nat := s.base - s.base % blockSize s

/-- Model of `IPv4Network.hosts()`: all usable host addresses in ascending
order — every address strictly between network and broadcast for prefixes
up to /30, both addresses for /31, the single address for /32. -/
def hosts (s : Subnet) : List Nat :=
  if s.prefixlen ≤ 30 then
    (List.range (blockSize s - 2)).map (fun i => network s + 1 + i)
  else if s.prefixlen = 31 then [network s, network s + 1]
  else [network s]

/-- Model of `awg.alloc_free_ip`: scans `hosts()` in order, skipping every
address whose last octet is 0 or 1 (`ip.packed[-1] < 2`) and every used
address; `none` models the capacity error. `used` is the set of parsed
client addresses. -/
def alloc_free_ip (used : Finset Nat) (s : Subnet) : Option Nat :=
  (hosts s).find? (fun ip => decide (2 ≤ ip % 256) && decide (ip ∉ used))

/-- Model of `repo_awg._get_next_ip`: scans `hosts()[1:]` (skipping only
the first host, reserved for the server) and returns the first address not
in `used`; `none` models the capacity error. -/
def get_next_ip (used : Finset Nat) (s : Subnet) : Option Nat :=
  ((hosts s).drop 1).find? (fun ip => decide (ip ∉ used))

set_option maxRecDepth 4000 in
/-- C5 counterexample: on the /23 subnet 10.0.0.0/23 with
10.0.0.2 … 10.0.0.255 used, the first free host after the reserved first
host is 10.0.1.0 (= 167772416), which `_get_next_ip` returns — but
`alloc_free_ip` skips it (last octet 0) and 10.0.1.1 too, returning
10.0.1.2 (= 167772418); so `alloc_free_ip` does not return the first
non-used host address, contradicting the claimed common algorithm, even
though the used set is well below capacity. -/
theorem first_free_address_cx :
    alloc_free_ip (Finset.Icc 167772162 167772415) ⟨167772160, 23⟩
        = some 167772418
    ∧ get_next_ip (Finset.Icc 167772162 167772415) ⟨167772160, 23⟩
        = some 167772416
    ∧ (167772416 : Nat) ∈ hosts ⟨167772160, 23⟩
    ∧ (167772416 : Nat) ∉ Finset.Icc (167772162 : Nat) 167772415
    ∧ (Finset.Icc (167772162 : Nat) 167772415).card
        < (hosts ⟨167772160, 23⟩).length - 1 := by
  refine ⟨by decide, by decide, by decide, by decide, by decide⟩

theorem hosts_nodup (s : Subnet) : (hosts s).Nodup := by
  unfold hosts
  by_cases h30 : s.prefixlen ≤ 30
  · rw [if_pos h30]
    exact (List.nodup_range _).map (fun i j hij => by omega)
  · rw [if_neg h30]
    by_cases h31 : s.prefixlen = 31
    · rw [if_pos h31]; simp
    · rw [if_neg h31]; simp

theorem find?_first_split {α} (p : α → Bool) :
    ∀ (l : List α) (a : α), l.find? p = some a →
      ∃ l1 l2, l = l1 ++ a :: l2 ∧ ∀ b ∈ l1, p b = false := by
  intro l
  induction l with
  | nil => intro a h; exact absurd h (by simp)
  | cons x l ih =>
    intro a h
    simp only [List.find?_cons] at h
    cases hp : p x with
    | true =>
      rw [hp] at h
      simp only [Option.some.injEq] at h
      subst h
      exact ⟨[], l, rfl, by simp⟩
    | false =>
      rw [hp] at h
      obtain ⟨l1, l2, rfl, hall⟩ := ih a h
      refine ⟨x :: l1, l2, rfl, ?_⟩
      intro b hb
      rcases List.mem_cons.mp hb with rfl | hm
      · exact hp
      · exact hall b hm

theorem find_free_of_card_lt (l : List Nat) (u : Finset Nat)
    (hnd : l.Nodup) (hc : u.card < l.length) :
    ∃ a, l.find? (fun x => decide (x ∉ u)) = some a ∧ a ∈ l ∧ a ∉ u := by
  cases hf : l.find? (fun x => decide (x ∉ u)) with
  | none =>
    exfalso
    have hall : ∀ x ∈ l, x ∈ u := by
      intro x hx
      have := List.find?_eq_none.mp hf x hx
      simpa using this
    have hsub : l.toFinset ⊆ u := by
      intro x hx
      exact hall x (List.mem_toFinset.mp hx)
    have hcard : l.length ≤ u.card := by
      calc l.length = l.toFinset.card := (List.toFinset_card_of_nodup hnd).symm
        _ ≤ u.card := Finset.card_le_card hsub
    omega
  | some a =>
    refine ⟨a, rfl, List.mem_of_find?_eq_some hf, ?_⟩
    have := List.find?_some hf
    simpa using this

/-- C5 (amended): `_get_next_ip` satisfies the claim for every subnet — for
every used set strictly smaller than `|hosts| - 1` it returns an address in
`hosts`, not used, different from the first host, namely the first such
address in iteration order, and errors only when all of `hosts()[1:]` is
used; `alloc_free_ip` instead skips every host whose last octet is 0 or 1,
returns the first remaining free host (with last octet ≥ 2), and raises
capacity exactly when every host with last octet ≥ 2 is used. The two
coincide on /24-or-longer prefixes, but not in general. -/
theorem first_free_address_amended (s : Subnet) (used : Finset Nat) :
    (used.card < (hosts s).length - 1 →
      ∃ a, get_next_ip used s = some a ∧ a ∈ hosts s ∧ a ∉ used ∧
        (∀ h0, (hosts s).head? = some h0 → a ≠ h0))
    ∧ (∀ a, get_next_ip used s = some a →
        ∃ l1 l2, (hosts s).drop 1 = l1 ++ a :: l2 ∧ ∀ b ∈ l1, b ∈ used)
    ∧ (get_next_ip used s = none → ∀ a ∈ (hosts s).drop 1, a ∈ used)
    ∧ (∀ a, alloc_free_ip used s = some a →
        a ∈ hosts s ∧ a ∉ used ∧ 2 ≤ a % 256)
    ∧ (alloc_free_ip used s = none ↔
        ∀ a ∈ hosts s, 2 ≤ a % 256 → a ∈ used) := by
  refine ⟨?_, ?_, ?_, ?_, ?_⟩
  · intro hc
    have hnd : ((hosts s).drop 1).Nodup :=
      (List.drop_sublist 1 (hosts s)).nodup (hosts_nodup s)
    have hlen : ((hosts s).drop 1).length = (hosts s).length - 1 :=
      List.length_drop 1 (hosts s)
    obtain ⟨a, hf, hmem, hnu⟩ :=
      find_free_of_card_lt ((hosts s).drop 1) used hnd (by omega)
    refine ⟨a, hf, List.mem_of_mem_drop hmem, hnu, ?_⟩
    intro h0 hh0
    cases hl : hosts s with
    | nil => rw [hl] at hh0; exact absurd hh0 (by simp)
    | cons x t =>
      rw [hl] at hh0
      simp only [List.head?_cons, Option.some.injEq] at hh0
      subst hh0
      rw [hl] at hmem
      simp only [List.drop_succ_cons, List.drop_zero] at hmem
      have hx := hosts_nodup s
      rw [hl] at hx
      intro heq
      subst heq
      exact (List.nodup_cons.mp hx).1 hmem
  · intro a ha
    obtain ⟨l1, l2, hsplit, hall⟩ := find?_first_split _ _ a ha
    refine ⟨l1, l2, hsplit, ?_⟩
    intro b hb
    have := hall b hb
    simpa using this
  · intro hn a ha
    have := List.find?_eq_none.mp hn a ha
    simpa using this
  · intro a ha
    refine ⟨List.mem_of_find?_eq_some ha, ?_, ?_⟩
    · have := List.find?_some ha
      simp only [Bool.and_eq_true, decide_eq_true_eq] at this
      exact this.2
    · have := List.find?_some ha
      simp only [Bool.and_eq_true, decide_eq_true_eq] at this
      exact this.1
  · constructor
    · intro hn a ha hoct
      have := List.find?_eq_none.mp hn a ha
      simp only [Bool.and_eq_true, decide_eq_true_eq, not_and] at this
      by_contra hu
      exact (this hoct) hu
    · intro hall
      unfold alloc_free_ip
      rw [List.find?_eq_none]
      intro x hx
      simp only [Bool.and_eq_true, decide_eq_true_eq, not_and]
      intro hoct
      intro hnu
      exact hnu (hall x hx hoct)

/-- Witness for the amended C5 on a concrete /30 subnet with nothing used. -/
theorem first_free_address_amended_w :
    ∃ a, get_next_ip (∅ : Finset Nat) ⟨167772160, 30⟩ = some a ∧
      a ∈ hosts ⟨167772160, 30⟩ ∧ a ∉ (∅ : Finset Nat) ∧
      (∀ h0, (hosts ⟨167772160, 30⟩).head? = some h0 → a ≠ h0) :=
  (first_free_address_amended ⟨167772160, 30⟩ ∅).1 (by decide)

/-! **The peer-block rewriter of `awg.py`** (`_drop_peer_block_in_text`,
`_append_peer_block_in_text`, `_ensure_interface_has_obf`, `_ensure_slash32`,
`_upsert_peer_block_in_file`).  Config texts are modelled in line view: a
function receiving a text receives its `splitlines()` and a produced text is
returned as the line list the next stage's `splitlines()` would see.  The
stages' `"\n".join(out) + ("\n" if out and out[-1] != "" else "")` convention
composed with the next `splitlines()` is `relinesJoin` below. -/

/-- A `[Peer]` block of the config text in line view: the raw header line
(whose `strip()` is `"[Peer]"`) together with the body lines up to the next
header — the grouping the index loop of `_drop_peer_block_in_text` performs
(`buf` is `header :: body`). -/
structure PeerBlock where
  header : String
  body : List String
deriving DecidableEq, Repr

/-- Split a config line list into the lines before the first `[Peer]` header
and the `[Peer]` blocks, exactly as the scan loop of
`_drop_peer_block_in_text` groups them. -/
def splitConf (lines : List String) : List String × List PeerBlock :=
  lines.foldr
    (fun l acc =>
      if pyStrip l = "[Peer]" then ([], (⟨l, acc.1⟩ : PeerBlock) :: acc.2)
      else (l :: acc.1, acc.2))
    ([], [])

/-- Re-join a prefix and blocks into the line list (`out_lines` of the drop
loop: kept blocks are emitted as `header :: body`). -/
def flattenConf (pre : List String) (blocks : List PeerBlock) : List String :=
  pre ++ (blocks.map (fun b => b.header :: b.body)).flatten

/-- Classification of one body line by the PublicKey scan inside
`_drop_peer_block_in_text`: not a PublicKey line; a PublicKey line whose
parsed value is `v` (the text after the first `=` of the raw line, stripped);
or a PublicKey line without `=`, on which Python's tuple unpacking of
`split("=", 1)` raises `ValueError`. -/
inductive PkLine where
  | notPk
  | pk (v : String)
  | malformed
deriving DecidableEq, Repr

/-- `lines[j].strip().startswith("PublicKey")` followed by
`_, val = lines[j].split("=", 1)` and `val.strip()`. -/
def pkLine (l : String) : PkLine :=
  if pyStartsWith (pyStrip l) "PublicKey" then
    match splitFirst l '=' with
    | some p => .pk (pyStrip p.2)
    | none => .malformed
  else .notPk

/-- All PublicKey values occurring in a line list, in order; `none` if some
PublicKey line is malformed (Python raises `ValueError` there). -/
def pkScan (ls : List String) : Option (List String) :=
  ls.foldr
    (fun l acc =>
      match pkLine l, acc with
      | .malformed, _ => none
      | _, none => none
      | .pk v, some vs => some (v :: vs)
      | .notPk, some vs => some vs)
    (some [])

/-- The PublicKey values of one block (the drop loop scans only the body:
its inner `while` starts at `j = i + 1`). -/
def blockPubkeys (b : PeerBlock) : Option (List String) :=
  pkScan b.body

/-- `keep = False` for this block: some PublicKey value equals `pubkey`
(`val.strip() == pubkey`). -/
def blockMatches (b : PeerBlock) (pubkey : String) : Bool :=
  match blockPubkeys b with
  | some vs => vs.any (fun v => decide (v = pubkey))
  | none => false

/-- The same test on a pubkey list instead of a block. -/
def blockMatchesO (pubkey : String) (o : Option (List String)) : Bool :=
  (o.getD []).any (fun v => decide (v = pubkey))

/-- `_drop_peer_block_in_text` in line view: every `[Peer]` block one of
whose PublicKey values equals `pubkey` is dropped; `none` models the
`ValueError` raised on a PublicKey body line without `=` (the scan visits
every body line of every block before the function returns). -/
def drop_peer_block (lines : List String) (pubkey : String) :
    Option (List String) :=
  let s := splitConf lines
  if s.2.all (fun b => (blockPubkeys b).isSome) then
    some (flattenConf s.1 (s.2.filter (fun b => !blockMatches b pubkey)))
  else none

/-- Right-trim of one line: the within-line part of Python `text.rstrip()`. -/
def rstripLine (l : String) : String :=
  ⟨(l.data.reverse.dropWhile isWs).reverse⟩

/-- Drop whitespace-only lines at the end of the list: the across-lines part
of Python `text.rstrip()` (the joining newlines are whitespace too). -/
def dropBlankEnd (ls : List String) : List String :=
  (ls.reverse.dropWhile (fun l => decide (pyStrip l = ""))).reverse

/-- Apply `f` to the last element of a list. -/
def mapLast (f : String → String) : List String → List String
  | [] => []
  | [x] => [f x]
  | x :: y :: xs => x :: mapLast f (y :: xs)

/-- Python `text.rstrip()` in line view: trailing whitespace-only lines
disappear and the remaining last line loses its trailing whitespace. -/
def rstripLines (ls : List String) : List String :=
  mapLast rstripLine (dropBlankEnd ls)

/-- `_append_peer_block_in_text` in line view: `conf_text.rstrip()` followed
by the fixed block `"\n[Peer]\nPublicKey = ...\nPresharedKey = ...\n`
`AllowedIPs = ...\nPersistentKeepalive = 25\n"`.  The block's leading
newline puts the header on a line of its own; when the rstripped text is
empty it contributes an empty first line. -/
def append_peer_block (ls : List String)
    (pubkey psk_val client_ip_cidr : String) : List String :=
  (if rstripLines ls = [] then [""] else rstripLines ls) ++
    ["[Peer]",
     "PublicKey = " ++ pubkey,
     "PresharedKey = " ++ psk_val,
     "AllowedIPs = " ++ client_ip_cidr,
     "PersistentKeepalive = 25"]

/-- The obfuscation keys `_ensure_interface_has_obf` manages (`want`). -/
def wantKeys : List String :=
  ["Jc", "Jmin", "Jmax", "S1", "S2", "H1", "H2", "H3", "H4"]

/-- The key a line can mark as seen: for a stripped line that does not start
with `#` and contains `=`, the stripped, lowercased text before the first
`=`. -/
def lineKeyLower (l : String) : Option String :=
  let s := pyStrip l
  if pyStartsWith s "#" then none
  else
    match splitFirst s '=' with
    | some p => some (pyLower (pyStrip p.1))
    | none => none

/-- `append_missing` of `_ensure_interface_has_obf`: one `f"{key} = {int(val)}"`
line for every wanted key not yet seen for which the merged parameter source
supplies a value.  The merge of the config-file scan with the runtime
`wg show` output (`read_interface_obf_params` plus `ENV_OBF_DEFAULTS`) is an
external input, passed as `obf`. -/
def appendMissing (obf : String → Option Int) (seen : List String) :
    List String :=
  (wantKeys.filter (fun k => decide (k ∉ seen))).filterMap
    (fun k => (obf k).map (fun v => k ++ " = " ++ intDec v))

/-- The line loop of `_ensure_interface_has_obf`, carrying `in_iface` and the
set of seen keys. -/
def ensureObfAux (obf : String → Option Int) :
    List String → Bool → List String → List String
  | [], in_iface, seen => if in_iface then appendMissing obf seen else []
  | l :: ls, in_iface, seen =>
    if pyStrip l = "[Interface]" then l :: ensureObfAux obf ls true seen
    else if pyStrip l = "[Peer]" then
      (if in_iface then appendMissing obf seen else []) ++
        l :: ensureObfAux obf ls false seen
    else
      match lineKeyLower l with
      | some kl =>
        l :: ensureObfAux obf ls in_iface
          (if in_iface then
            seen ++ wantKeys.filter (fun k => decide (pyLower k = kl))
          else seen)
      | none => l :: ensureObfAux obf ls in_iface seen

/-- `_ensure_interface_has_obf` in line view. -/
def ensure_interface_has_obf (obf : String → Option Int) (ls : List String) :
    List String :=
  ensureObfAux obf ls false []

/-- `"\n".join(out) + ("\n" if out and out[-1] != "" else "")` composed with
the next stage's `splitlines()`: the line list survives except that a final
empty line is dropped. -/
def relinesJoin (ls : List String) : List String :=
  if ls.getLast? = some "" then ls.dropLast else ls

/-- `_ensure_slash32`: the address argument is modelled structurally as a
host `ip` with an optional explicit prefix length (Python parses the string
form with `ipaddress.ip_interface`); no prefix means `/32`, an explicit
prefix other than `32` raises `ValueError` (`none`). -/
def ensure_slash32 (ip : Nat) (pfx : Option Nat) : Option Nat :=
  match pfx with
  | none => some ip
  | some p => if p = 32 then some ip else none

/-- Dotted-quad rendering of a host address. -/
def ipStr (ip : Nat) : String :=
  natDec (ip / 16777216 % 256) ++ "." ++ natDec (ip / 65536 % 256) ++ "." ++
    natDec (ip / 256 % 256) ++ "." ++ natDec (ip % 256)

/-- `_upsert_peer_block_in_file` in line view, external inputs explicit: the
merged obfuscation parameters `obf`, the shared preshared secret `psk`, and
the target address `(ip, pfx)`.  `none` models a raised exception (a bad
prefix length, or a malformed PublicKey line hit by the drop scan); the text
handed to `_write_conf_text_atomic` is returned in line view. -/
def upsert_peer_block (obf : String → Option Int) (lines : List String)
    (cli_pub psk : String) (ip : Nat) (pfx : Option Nat) :
    Option (List String) :=
  let conf1 := relinesJoin (ensure_interface_has_obf obf lines)
  match ensure_slash32 ip pfx with
  | none => none
  | some ipok =>
    match drop_peer_block conf1 cli_pub with
    | none => none
    | some conf2 =>
      some (append_peer_block (relinesJoin conf2) cli_pub psk
        (ipStr ipok ++ "/32"))

/-- Two consecutive applications with identical arguments. -/
def upsertTwice (obf : String → Option Int) (lines : List String)
    (cli_pub psk : String) (ip : Nat) (pfx : Option Nat) :
    Option (List String) :=
  (upsert_peer_block obf lines cli_pub psk ip pfx).bind
    (fun o => upsert_peer_block obf o cli_pub psk ip pfx)

def dropEndWs (cs : List Char) : List Char :=
  (cs.reverse.dropWhile isWs).reverse

theorem pyStrip_data (s : String) :
    (pyStrip s).data = dropEndWs (s.data.dropWhile isWs) := rfl

theorem rstripLine_data (l : String) :
    (rstripLine l).data = dropEndWs l.data := rfl

theorem dropWhile_ws_idem (l : List Char) :
    List.dropWhile isWs (List.dropWhile isWs l) = List.dropWhile isWs l := by
  induction l with
  | nil => rfl
  | cons a l ih =>
    by_cases h : isWs a = true
    · rw [List.dropWhile_cons_of_pos h]; exact ih
    · rw [List.dropWhile_cons_of_neg h, List.dropWhile_cons_of_neg h]

theorem dropEndWs_cons (c : Char) (cs : List Char) :
    dropEndWs (c :: cs) =
      if isWs c = true ∧ dropEndWs cs = [] then [] else c :: dropEndWs cs := by
  unfold dropEndWs
  rw [show (c :: cs).reverse = cs.reverse ++ [c] by simp]
  rw [List.dropWhile_append]
  by_cases h : List.dropWhile isWs cs.reverse = []
  · rw [if_pos (by simp [h])]
    by_cases hc : isWs c = true
    · rw [List.dropWhile_cons_of_pos hc]
      simp [h, hc]
    · rw [List.dropWhile_cons_of_neg hc]
      simp [h, hc]
  · rw [if_neg (by simp [h])]
    rw [if_neg (by intro hh; exact h (by simpa using congrArg List.reverse hh.2))]
    simp

theorem dropEndWs_idem (cs : List Char) :
    dropEndWs (dropEndWs cs) = dropEndWs cs := by
  unfold dropEndWs
  rw [List.reverse_reverse, dropWhile_ws_idem]

theorem dropWhile_dropEndWs_comm (cs : List Char) :
    List.dropWhile isWs (dropEndWs cs) = dropEndWs (List.dropWhile isWs cs) := by
  induction cs with
  | nil => rfl
  | cons c cs ih =>
    by_cases hc : isWs c = true
    · rw [List.dropWhile_cons_of_pos hc, dropEndWs_cons]
      by_cases hz : dropEndWs cs = []
      · rw [if_pos ⟨hc, hz⟩]
        rw [← ih, hz]
      · rw [if_neg (by intro hh; exact hz hh.2)]
        rw [List.dropWhile_cons_of_pos hc, ih]
    · have e1 : dropEndWs (c :: cs) = c :: dropEndWs cs := by
        rw [dropEndWs_cons, if_neg]; intro hh; exact hc hh.1
      rw [e1, List.dropWhile_cons_of_neg hc, List.dropWhile_cons_of_neg hc, e1]

theorem pyStrip_rstripLine (l : String) :
    pyStrip (rstripLine l) = pyStrip l := by
  show (⟨dropEndWs (List.dropWhile isWs (rstripLine l).data)⟩ : String) =
    ⟨dropEndWs (List.dropWhile isWs l.data)⟩
  rw [rstripLine_data, dropWhile_dropEndWs_comm, dropEndWs_idem]

/-- From `s.strip() = s` recover that neither side strips anything. -/

theorem strip_id_parts (s : String) (h : pyStrip s = s) :
    s.data.dropWhile isWs = s.data ∧ dropEndWs s.data = s.data := by
  have hd : (pyStrip s).data = s.data := congrArg String.data h
  rw [pyStrip_data] at hd
  have h1 : (dropEndWs (s.data.dropWhile isWs)).length ≤
      (s.data.dropWhile isWs).length := by
    unfold dropEndWs
    calc ((s.data.dropWhile isWs).reverse.dropWhile isWs).reverse.length
        = ((s.data.dropWhile isWs).reverse.dropWhile isWs).length := by
          rw [List.length_reverse]
      _ ≤ (s.data.dropWhile isWs).reverse.length :=
          (List.dropWhile_suffix isWs).length_le
      _ = (s.data.dropWhile isWs).length := by rw [List.length_reverse]
  have h2 : (s.data.dropWhile isWs).length ≤ s.data.length :=
    (List.dropWhile_suffix isWs).length_le
  have hlen : (dropEndWs (s.data.dropWhile isWs)).length = s.data.length := by
    rw [hd]
  have h3 : (s.data.dropWhile isWs).length = s.data.length := by omega
  have hfront : s.data.dropWhile isWs = s.data :=
    (List.dropWhile_suffix isWs).eq_of_length h3
  refine ⟨hfront, ?_⟩
  rw [hfront] at hd
  exact hd

theorem sF_none_iff (sep : Char) (cs : List Char) :
    splitFirstChars sep cs = none ↔ sep ∉ cs := by
  induction cs with
  | nil => simp [splitFirstChars]
  | cons c cs ih =>
    by_cases hc : c = sep
    · subst hc; simp [splitFirstChars]
    · rw [splitFirstChars, if_neg hc]
      cases h : splitFirstChars sep cs with
      | none =>
        simp only [Option.map]
        rw [h] at ih
        simp [List.mem_cons, ih.mp rfl, Ne.symm hc, hc]
      | some p =>
        simp only [Option.map]
        constructor
        · intro hx; exact absurd hx (by simp)
        · intro hx
          exfalso
          apply hx
          rw [h] at ih
          have hm : sep ∈ cs := by
            by_contra hni
            have := ih.mpr hni
            simp at this
          exact List.mem_cons_of_mem c hm

theorem sF_eq_some (sep : Char) :
    ∀ (cs a b : List Char), splitFirstChars sep cs = some (a, b) →
      cs = a ++ sep :: b ∧ sep ∉ a := by
  intro cs
  induction cs with
  | nil => intro a b h; exact absurd h (by simp [splitFirstChars])
  | cons c cs ih =>
    intro a b h
    rw [splitFirstChars] at h
    by_cases hc : c = sep
    · rw [if_pos hc] at h
      injection h with h
      injection h with h1 h2
      subst h1; subst h2; subst hc
      simp
    · rw [if_neg hc] at h
      cases hx : splitFirstChars sep cs with
      | none => rw [hx] at h; exact absurd h (by simp)
      | some p =>
        rw [hx] at h
        simp only [Option.map, Option.some.injEq] at h
        injection h with h1 h2
        subst h1; subst h2
        obtain ⟨hcs, hna⟩ := ih p.1 p.2 (by rw [hx])
        constructor
        · rw [hcs]; simp
        · simp only [List.mem_cons]
          intro hmem
          rcases hmem with hmem | hmem
          · exact hc hmem.symm
          · exact hna hmem

theorem sF_append_no (sep : Char) :
    ∀ (a b : List Char), sep ∉ a →
      splitFirstChars sep (a ++ sep :: b) = some (a, b) := by
  intro a
  induction a with
  | nil => intro b _; simp [splitFirstChars]
  | cons c a ih =>
    intro b hna
    have hc : ¬ c = sep := by
      intro hh; exact hna (by simp [hh])
    rw [List.cons_append, splitFirstChars, if_neg hc,
      ih b (fun hm => hna (by simp [hm]))]
    rfl

theorem dropEndWs_append_keep (d : Char) (hd : isWs d = false)
    (xs ys : List Char) :
    dropEndWs (xs ++ d :: ys) = xs ++ d :: dropEndWs ys := by
  unfold dropEndWs
  rw [show (xs ++ d :: ys).reverse = ys.reverse ++ d :: xs.reverse by simp]
  rw [List.dropWhile_append]
  by_cases h : List.dropWhile isWs ys.reverse = []
  · rw [if_pos (by simp [h]), List.dropWhile_cons_of_neg (by simp [hd]), h]
    simp
  · rw [if_neg (by simp [h])]
    simp

theorem dropEndWs_decomp (cs : List Char) :
    ∃ suf, (∀ c ∈ suf, isWs c = true) ∧ cs = dropEndWs cs ++ suf := by
  refine ⟨(cs.reverse.takeWhile isWs).reverse, ?_, ?_⟩
  · intro c hc
    rw [List.mem_reverse] at hc
    exact List.mem_takeWhile_imp hc
  · unfold dropEndWs
    rw [← List.reverse_append, List.takeWhile_append_dropWhile, List.reverse_reverse]

theorem pkLine_rstripLine (l : String) :
    pkLine (rstripLine l) = pkLine l := by
  unfold pkLine
  rw [pyStrip_rstripLine]
  by_cases hp : pyStartsWith (pyStrip l) "PublicKey" = true
  · rw [if_pos hp, if_pos hp]
    unfold splitFirst
    cases h : splitFirstChars '=' l.data with
    | none =>
      have hno : '=' ∉ l.data := (sF_none_iff '=' l.data).mp h
      have hno2 : '=' ∉ (rstripLine l).data := by
        rw [rstripLine_data]
        intro hm
        obtain ⟨suf, _, hdec⟩ := dropEndWs_decomp l.data
        exact hno (by rw [hdec]; exact List.mem_append_left _ hm)
      rw [(sF_none_iff '=' (rstripLine l).data).mpr hno2]
    | some p =>
      obtain ⟨hcs, hna⟩ := sF_eq_some '=' l.data p.1 p.2 (by rw [h])
      have hr : (rstripLine l).data = p.1 ++ '=' :: dropEndWs p.2 := by
        rw [rstripLine_data, hcs, dropEndWs_append_keep '=' (by decide)]
      rw [hr, sF_append_no '=' p.1 (dropEndWs p.2) hna]
      simp only [Option.map]
      have : pyStrip ⟨dropEndWs p.2⟩ = pyStrip ⟨p.2⟩ := pyStrip_rstripLine ⟨p.2⟩
      rw [this]
  · rw [if_neg hp, if_neg hp]

inductive ConfToken where
  | header
  | pkv (v : String)
  | badPk
deriving DecidableEq, Repr

/-- The only features of a config line the block/PublicKey structure can
see: is it a `[Peer]` header, a well-formed PublicKey line (with its value),
a malformed PublicKey line, or none of these. -/

def tokenOf (l : String) : Option ConfToken :=
  if pyStrip l = "[Peer]" then some .header
  else
    match pkLine l with
    | .notPk => none
    | .pk v => some (.pkv v)
    | .malformed => some .badPk

def confTrace (ls : List String) : List ConfToken :=
  ls.filterMap tokenOf

/-- Re-group a token trace the way `splitConf` groups lines: the PublicKey
scan of the prefix, and the scan of each block. -/

def traceSplit (ts : List ConfToken) :
    Option (List String) × List (Option (List String)) :=
  ts.foldr
    (fun t acc =>
      match t with
      | .header => (some [], acc.1 :: acc.2)
      | .pkv v => (acc.1.map (fun vs => v :: vs), acc.2)
      | .badPk => (none, acc.2))
    (some [], [])

theorem splitConf_cons (l : String) (ls : List String) :
    splitConf (l :: ls) =
      if pyStrip l = "[Peer]"
      then ([], (⟨l, (splitConf ls).1⟩ : PeerBlock) :: (splitConf ls).2)
      else (l :: (splitConf ls).1, (splitConf ls).2) := rfl

theorem pkScan_cons (l : String) (ls : List String) :
    pkScan (l :: ls) =
      match pkLine l, pkScan ls with
      | .malformed, _ => none
      | _, none => none
      | .pk v, some vs => some (v :: vs)
      | .notPk, some vs => some vs := rfl

theorem confTrace_cons_some (l : String) (ls : List String) (t : ConfToken)
    (h : tokenOf l = some t) : confTrace (l :: ls) = t :: confTrace ls := by
  unfold confTrace
  rw [List.filterMap_cons, h]

theorem confTrace_cons_none (l : String) (ls : List String)
    (h : tokenOf l = none) : confTrace (l :: ls) = confTrace ls := by
  unfold confTrace
  rw [List.filterMap_cons, h]

theorem traceSplit_cons (t : ConfToken) (ts : List ConfToken) :
    traceSplit (t :: ts) =
      match t with
      | .header => (some [], (traceSplit ts).1 :: (traceSplit ts).2)
      | .pkv v => ((traceSplit ts).1.map (fun vs => v :: vs), (traceSplit ts).2)
      | .badPk => (none, (traceSplit ts).2) := rfl

/-- The block/PublicKey structure of a config is fully determined by its
token trace: the prefix scan and the per-block pubkey lists of `splitConf`
are recovered by `traceSplit` of `confTrace`. -/

theorem splitConf_trace (ls : List String) :
    pkScan (splitConf ls).1 = (traceSplit (confTrace ls)).1 ∧
    (splitConf ls).2.map blockPubkeys = (traceSplit (confTrace ls)).2 := by
  induction ls with
  | nil => exact ⟨rfl, rfl⟩
  | cons l ls ih =>
    by_cases hh : pyStrip l = "[Peer]"
    · have ht : tokenOf l = some .header := by unfold tokenOf; rw [if_pos hh]
      rw [splitConf_cons, if_pos hh, confTrace_cons_some l ls _ ht, traceSplit_cons]
      constructor
      · rfl
      · show blockPubkeys ⟨l, (splitConf ls).1⟩ :: (splitConf ls).2.map blockPubkeys =
          (traceSplit (confTrace ls)).1 :: (traceSplit (confTrace ls)).2
        rw [show blockPubkeys ⟨l, (splitConf ls).1⟩ = pkScan (splitConf ls).1 from rfl,
          ih.1, ih.2]
    · rw [splitConf_cons, if_neg hh]
      cases hpk : pkLine l with
      | notPk =>
        have ht : tokenOf l = none := by
          unfold tokenOf; rw [if_neg hh, hpk]
        rw [confTrace_cons_none l ls ht]
        refine ⟨?_, ih.2⟩
        show pkScan (l :: (splitConf ls).1) = (traceSplit (confTrace ls)).1
        rw [pkScan_cons, hpk, ← ih.1]
        cases pkScan (splitConf ls).1 <;> rfl
      | pk v =>
        have ht : tokenOf l = some (.pkv v) := by
          unfold tokenOf; rw [if_neg hh, hpk]
        rw [confTrace_cons_some l ls _ ht, traceSplit_cons]
        refine ⟨?_, ih.2⟩
        show pkScan (l :: (splitConf ls).1) =
          (traceSplit (confTrace ls)).1.map (fun vs => v :: vs)
        rw [pkScan_cons, hpk, ← ih.1]
        cases pkScan (splitConf ls).1 <;> rfl
      | malformed =>
        have ht : tokenOf l = some .badPk := by
          unfold tokenOf; rw [if_neg hh, hpk]
        rw [confTrace_cons_some l ls _ ht, traceSplit_cons]
        refine ⟨?_, ih.2⟩
        show pkScan (l :: (splitConf ls).1) = (none : Option (List String))
        rw [pkScan_cons, hpk]
        cases pkScan (splitConf ls).1 <;> rfl

theorem tokenOf_blank (l : String) (h : pyStrip l = "") : tokenOf l = none := by
  unfold tokenOf
  have h1 : ¬ pyStrip l = "[Peer]" := by rw [h]; decide
  rw [if_neg h1]
  have h2 : pkLine l = .notPk := by
    unfold pkLine
    rw [if_neg (by rw [h]; decide)]
  rw [h2]

theorem tokenOf_rstripLine (l : String) : tokenOf (rstripLine l) = tokenOf l := by
  unfold tokenOf
  rw [pyStrip_rstripLine, pkLine_rstripLine]

theorem confTrace_append (xs ys : List String) :
    confTrace (xs ++ ys) = confTrace xs ++ confTrace ys :=
  List.filterMap_append xs ys tokenOf

theorem confTrace_dropBlankEnd (ls : List String) :
    confTrace (dropBlankEnd ls) = confTrace ls := by
  have hdec : ls = dropBlankEnd ls ++
      (ls.reverse.takeWhile (fun l => decide (pyStrip l = ""))).reverse := by
    unfold dropBlankEnd
    rw [← List.reverse_append, List.takeWhile_append_dropWhile, List.reverse_reverse]
  conv_rhs => rw [hdec]
  rw [confTrace_append]
  rw [show confTrace (ls.reverse.takeWhile
      (fun l => decide (pyStrip l = ""))).reverse = [] from ?_]
  · rw [List.append_nil]
  · apply List.filterMap_eq_nil_iff.mpr
    intro a ha
    rw [List.mem_reverse] at ha
    exact tokenOf_blank a (of_decide_eq_true
      (List.mem_takeWhile_imp (p := fun l => decide (pyStrip l = "")) ha))

theorem confTrace_mapLast_rstrip (ls : List String) :
    confTrace (mapLast rstripLine ls) = confTrace ls := by
  induction ls with
  | nil => rfl
  | cons x xs ih =>
    cases xs with
    | nil =>
      show confTrace [rstripLine x] = confTrace [x]
      unfold confTrace
      rw [List.filterMap_cons, List.filterMap_cons, tokenOf_rstripLine]
    | cons y ys =>
      show confTrace (x :: mapLast rstripLine (y :: ys)) = confTrace (x :: y :: ys)
      unfold confTrace at ih ⊢
      rw [List.filterMap_cons, List.filterMap_cons, ih]

theorem confTrace_rstripLines (ls : List String) :
    confTrace (rstripLines ls) = confTrace ls := by
  unfold rstripLines
  rw [confTrace_mapLast_rstrip, confTrace_dropBlankEnd]

theorem confTrace_relines (ls : List String) :
    confTrace (relinesJoin ls) = confTrace ls := by
  unfold relinesJoin
  by_cases h : ls.getLast? = some ""
  · rw [if_pos h]
    have hdec : ls.dropLast ++ [""] = ls := List.dropLast_append_getLast? _ h
    conv_rhs => rw [← hdec]
    rw [confTrace_append]
    rw [show confTrace [""] = [] from by
      unfold confTrace
      rw [List.filterMap_cons, tokenOf_blank "" rfl]
      rfl]
    rw [List.append_nil]
  · rw [if_neg h]

theorem pyStrip_shape (l : String) (c : Char) (xs : List Char) (d : Char)
    (ys : List Char) (hl : l.data = c :: xs ++ d :: ys)
    (hc : isWs c = false) (hd : isWs d = false) :
    (pyStrip l).data = c :: xs ++ d :: dropEndWs ys := by
  rw [pyStrip_data, hl]
  rw [show (c :: xs ++ d :: ys) = (c :: xs) ++ d :: ys from rfl]
  rw [show List.dropWhile isWs ((c :: xs) ++ d :: ys) = (c :: xs) ++ d :: ys from by
    rw [show (c :: xs) ++ d :: ys = c :: (xs ++ d :: ys) from rfl]
    exact List.dropWhile_cons_of_neg (by simp [hc])]
  rw [dropEndWs_append_keep d hd]

theorem tokenOf_none_of_shape (l : String) (c : Char) (rest : List Char)
    (hs : (pyStrip l).data = c :: rest) (hc : ¬ c = '[')
    (h2 : "PublicKey".data.isPrefixOf (c :: rest) = false) :
    tokenOf l = none := by
  unfold tokenOf
  rw [if_neg (by
    intro heq
    have := congrArg String.data heq
    rw [hs] at this
    exact hc (List.head_eq_of_cons_eq this))]
  rw [show pkLine l = .notPk from by
    unfold pkLine
    rw [if_neg (by
      show ¬ pyStartsWith (pyStrip l) "PublicKey" = true
      unfold pyStartsWith
      rw [hs, h2]
      simp)]]

theorem tokenOf_preshared (psk : String) :
    tokenOf ("PresharedKey = " ++ psk) = none := by
  have hl : ("PresharedKey = " ++ psk).data =
      'P' :: "resharedKey ".data ++ '=' :: (' ' :: psk.data) := by
    rw [String.data_append]; rfl
  exact tokenOf_none_of_shape _ 'P' _
    (pyStrip_shape _ 'P' "resharedKey ".data '=' (' ' :: psk.data) hl
      (by decide) (by decide))
    (by decide) rfl

theorem tokenOf_allowed (s : String) :
    tokenOf ("AllowedIPs = " ++ s) = none := by
  have hl : ("AllowedIPs = " ++ s).data =
      'A' :: "llowedIPs ".data ++ '=' :: (' ' :: s.data) := by
    rw [String.data_append]; rfl
  exact tokenOf_none_of_shape _ 'A' _
    (pyStrip_shape _ 'A' "llowedIPs ".data '=' (' ' :: s.data) hl
      (by decide) (by decide))
    (by decide) rfl

theorem tokenOf_keepalive : tokenOf "PersistentKeepalive = 25" = none := by
  decide

theorem tokenOf_peer_header : tokenOf "[Peer]" = some .header := by
  decide

theorem pkLine_publine (pub : String) (hpub : pyStrip pub = pub) :
    pkLine ("PublicKey = " ++ pub) = .pk pub := by
  obtain ⟨hfront, hback⟩ := strip_id_parts pub hpub
  have hl : ("PublicKey = " ++ pub).data =
      'P' :: "ublicKey ".data ++ '=' :: (' ' :: pub.data) := by
    rw [String.data_append]; rfl
  have hs := pyStrip_shape _ 'P' "ublicKey ".data '=' (' ' :: pub.data) hl
    (by decide) (by decide)
  unfold pkLine
  rw [if_pos (by
    unfold pyStartsWith
    rw [hs]
    rfl)]
  unfold splitFirst
  rw [show ("PublicKey = " ++ pub).data =
      "PublicKey ".data ++ '=' :: (' ' :: pub.data) from hl]
  rw [sF_append_no '=' "PublicKey ".data (' ' :: pub.data) (by decide)]
  simp only [Option.map]
  rw [show pyStrip ⟨' ' :: pub.data⟩ = pub from by
    rw [show pyStrip ⟨' ' :: pub.data⟩ =
        ⟨dropEndWs (List.dropWhile isWs (' ' :: pub.data))⟩ from rfl]
    rw [List.dropWhile_cons_of_pos (by decide), hfront, hback]]

theorem tokenOf_publine (pub : String) (hpub : pyStrip pub = pub) :
    tokenOf ("PublicKey = " ++ pub) = some (.pkv pub) := by
  obtain ⟨hfront, hback⟩ := strip_id_parts pub hpub
  have hl : ("PublicKey = " ++ pub).data =
      'P' :: "ublicKey ".data ++ '=' :: (' ' :: pub.data) := by
    rw [String.data_append]; rfl
  have hs := pyStrip_shape _ 'P' "ublicKey ".data '=' (' ' :: pub.data) hl
    (by decide) (by decide)
  unfold tokenOf
  rw [if_neg (by
    intro heq
    have := congrArg String.data heq
    rw [hs] at this
    exact absurd (List.head_eq_of_cons_eq this) (by decide))]
  rw [pkLine_publine pub hpub]

theorem tokenOf_obfLine (k : String) (hk : k ∈ wantKeys) (v : Int) :
    tokenOf (k ++ " = " ++ intDec v) = none := by
  have step : ∀ (c : Char) (xsl : String) (hc : isWs c = false)
      (hcb : ¬ c = '[')
      (h2 : "PublicKey".data.isPrefixOf
        (c :: (xsl.data ++ '=' :: dropEndWs (' ' :: (intDec v).data))) = false)
      (l : String)
      (hl : l.data = c :: xsl.data ++ '=' :: (' ' :: (intDec v).data)),
      tokenOf l = none := by
    intro c xsl hc hcb h2 l hl
    exact tokenOf_none_of_shape l c _
      (pyStrip_shape l c xsl.data '=' (' ' :: (intDec v).data) hl hc (by decide))
      hcb h2
  fin_cases hk
  · exact step 'J' "c " (by decide) (by decide) rfl _ (by rw [String.data_append, String.data_append]; rfl)
  · exact step 'J' "min " (by decide) (by decide) rfl _ (by rw [String.data_append, String.data_append]; rfl)
  · exact step 'J' "max " (by decide) (by decide) rfl _ (by rw [String.data_append, String.data_append]; rfl)
  · exact step 'S' "1 " (by decide) (by decide) rfl _ (by rw [String.data_append, String.data_append]; rfl)
  · exact step 'S' "2 " (by decide) (by decide) rfl _ (by rw [String.data_append, String.data_append]; rfl)
  · exact step 'H' "1 " (by decide) (by decide) rfl _ (by rw [String.data_append, String.data_append]; rfl)
  · exact step 'H' "2 " (by decide) (by decide) rfl _ (by rw [String.data_append, String.data_append]; rfl)
  · exact step 'H' "3 " (by decide) (by decide) rfl _ (by rw [String.data_append, String.data_append]; rfl)
  · exact step 'H' "4 " (by decide) (by decide) rfl _ (by rw [String.data_append, String.data_append]; rfl)

theorem appendMissing_trace (obf : String → Option Int) (seen : List String) :
    confTrace (appendMissing obf seen) = [] := by
  apply List.filterMap_eq_nil_iff.mpr
  intro a ha
  unfold appendMissing at ha
  rw [List.mem_filterMap] at ha
  obtain ⟨k, hk, hmap⟩ := ha
  obtain ⟨v, _, hfv⟩ := Option.map_eq_some'.mp hmap
  rw [← hfv]
  exact tokenOf_obfLine k (List.mem_of_mem_filter hk) v

theorem confTrace_ensureAux (obf : String → Option Int) (ls : List String) :
    ∀ (i : Bool) (seen : List String),
      confTrace (ensureObfAux obf ls i seen) = confTrace ls := by
  induction ls with
  | nil =>
    intro i seen
    show confTrace (if i then appendMissing obf seen else []) = confTrace []
    cases i
    · rfl
    · exact appendMissing_trace obf seen
  | cons l ls ih =>
    intro i seen
    show confTrace (ensureObfAux obf (l :: ls) i seen) = confTrace (l :: ls)
    unfold ensureObfAux
    by_cases h1 : pyStrip l = "[Interface]"
    · rw [if_pos h1]
      have hih := ih true seen
      unfold confTrace at hih ⊢
      rw [List.filterMap_cons, List.filterMap_cons, hih]
    · rw [if_neg h1]
      by_cases h2 : pyStrip l = "[Peer]"
      · rw [if_pos h2]
        rw [confTrace_append]
        rw [show confTrace (if i then appendMissing obf seen else []) = [] from by
          cases i
          · rfl
          · exact appendMissing_trace obf seen]
        rw [List.nil_append]
        have hih := ih false seen
        unfold confTrace at hih ⊢
        rw [List.filterMap_cons, List.filterMap_cons, hih]
      · rw [if_neg h2]
        cases hk : lineKeyLower l with
        | some kl =>
          show confTrace (l :: ensureObfAux obf ls i
            (if i then seen ++ wantKeys.filter (fun k => decide (pyLower k = kl))
             else seen)) = confTrace (l :: ls)
          have hih := ih i (if i then
            seen ++ wantKeys.filter (fun k => decide (pyLower k = kl)) else seen)
          unfold confTrace at hih ⊢
          rw [List.filterMap_cons, List.filterMap_cons, hih]
        | none =>
          show confTrace (l :: ensureObfAux obf ls i seen) = confTrace (l :: ls)
          have hih := ih i seen
          unfold confTrace at hih ⊢
          rw [List.filterMap_cons, List.filterMap_cons, hih]

theorem splitConf_nopeer_append (xs ys : List String)
    (h : ∀ l ∈ xs, ¬ pyStrip l = "[Peer]") :
    splitConf (xs ++ ys) = (xs ++ (splitConf ys).1, (splitConf ys).2) := by
  induction xs with
  | nil => simp
  | cons x xs ih =>
    rw [List.cons_append, splitConf_cons, if_neg (h x (by simp)),
      ih (fun l hl => h l (by simp [hl]))]
    rfl

theorem splitConf_flatten_nil :
    ∀ (blocks : List PeerBlock),
      (∀ b ∈ blocks, pyStrip b.header = "[Peer]" ∧
        ∀ l ∈ b.body, ¬ pyStrip l = "[Peer]") →
      splitConf (flattenConf [] blocks) = ([], blocks) := by
  intro blocks
  induction blocks with
  | nil => intro _; rfl
  | cons b bs ih =>
    intro h
    have h1 : flattenConf [] (b :: bs) =
        b.header :: (b.body ++ flattenConf [] bs) := by
      unfold flattenConf
      simp
    rw [h1, splitConf_cons, if_pos (h b (by simp)).1,
      splitConf_nopeer_append b.body (flattenConf [] bs)
        (fun l hl => (h b (by simp)).2 l hl),
      ih (fun x hx => h x (by simp [hx]))]
    simp

theorem splitConf_flatten (pre : List String) (blocks : List PeerBlock)
    (hpre : ∀ l ∈ pre, ¬ pyStrip l = "[Peer]")
    (hb : ∀ b ∈ blocks, pyStrip b.header = "[Peer]" ∧
      ∀ l ∈ b.body, ¬ pyStrip l = "[Peer]") :
    splitConf (flattenConf pre blocks) = (pre, blocks) := by
  induction pre with
  | nil => exact splitConf_flatten_nil blocks hb
  | cons x pre ihp =>
    have h1 : flattenConf (x :: pre) blocks = x :: flattenConf pre blocks := rfl
    rw [h1, splitConf_cons, if_neg (hpre x (by simp)),
      ihp (fun l hl => hpre l (by simp [hl]))]

theorem splitConf_wf (ls : List String) :
    (∀ l ∈ (splitConf ls).1, ¬ pyStrip l = "[Peer]") ∧
    (∀ b ∈ (splitConf ls).2, pyStrip b.header = "[Peer]" ∧
      ∀ l ∈ b.body, ¬ pyStrip l = "[Peer]") := by
  induction ls with
  | nil => exact ⟨by simp [splitConf], by simp [splitConf]⟩
  | cons l ls ih =>
    rw [splitConf_cons]
    by_cases hh : pyStrip l = "[Peer]"
    · rw [if_pos hh]
      refine ⟨by simp, ?_⟩
      intro b hbmem
      rcases List.mem_cons.mp hbmem with rfl | hm
      · exact ⟨hh, ih.1⟩
      · exact ih.2 b hm
    · rw [if_neg hh]
      refine ⟨?_, ih.2⟩
      intro x hx
      rcases List.mem_cons.mp hx with rfl | hm
      · exact hh
      · exact ih.1 x hm

theorem drop_peer_block_some (lines : List String) (pub : String)
    (out : List String) (h : drop_peer_block lines pub = some out) :
    out = flattenConf (splitConf lines).1
        ((splitConf lines).2.filter (fun b => !blockMatches b pub)) ∧
    (splitConf lines).2.all (fun b => (blockPubkeys b).isSome) = true := by
  simp only [drop_peer_block] at h
  by_cases hall : (splitConf lines).2.all (fun b => (blockPubkeys b).isSome) = true
  · rw [if_pos hall] at h
    injection h with h
    exact ⟨h.symm, hall⟩
  · rw [if_neg hall] at h
    exact absurd h (by simp)

theorem splitConf_drop (lines : List String) (pub : String)
    (out : List String) (h : drop_peer_block lines pub = some out) :
    splitConf out = ((splitConf lines).1,
      (splitConf lines).2.filter (fun b => !blockMatches b pub)) := by
  obtain ⟨ho, _⟩ := drop_peer_block_some lines pub out h
  rw [ho]
  exact splitConf_flatten _ _ (splitConf_wf lines).1
    (fun b hb => (splitConf_wf lines).2 b (List.mem_of_mem_filter hb))

theorem traceSplit_append_pair (ts : List ConfToken) (v : String) :
    traceSplit (ts ++ [ConfToken.header, ConfToken.pkv v]) =
      ((traceSplit ts).1, (traceSplit ts).2 ++ [some [v]]) := by
  induction ts with
  | nil => rfl
  | cons t ts ih =>
    rw [List.cons_append, traceSplit_cons, ih, traceSplit_cons]
    cases t <;> rfl

theorem confTrace_append_peer (r : List String) (pub psk cidr : String)
    (hpub : pyStrip pub = pub) :
    confTrace (append_peer_block r pub psk cidr) =
      confTrace r ++ [ConfToken.header, ConfToken.pkv pub] := by
  unfold append_peer_block
  rw [confTrace_append]
  congr 1
  · by_cases hr : rstripLines r = []
    · rw [if_pos hr]
      rw [show confTrace [""] = [] from by
        unfold confTrace
        rw [List.filterMap_cons, tokenOf_blank "" rfl]
        rfl]
      rw [← confTrace_rstripLines r, hr]
      rfl
    · rw [if_neg hr, confTrace_rstripLines]
  · unfold confTrace
    rw [List.filterMap_cons, tokenOf_peer_header,
      List.filterMap_cons, tokenOf_publine pub hpub,
      List.filterMap_cons, tokenOf_preshared,
      List.filterMap_cons, tokenOf_allowed,
      List.filterMap_cons, tokenOf_keepalive]
    rfl

theorem ensure_slash32_some (ip : Nat) (pfx : Option Nat) (j : Nat)
    (h : ensure_slash32 ip pfx = some j) : j = ip := by
  unfold ensure_slash32 at h
  cases pfx with
  | none =>
    injection h with h
    exact h.symm
  | some p =>
    have h2 : (if p = 32 then some ip else none) = some j := h
    by_cases hp : p = 32
    · rw [if_pos hp] at h2
      injection h2 with h2
      exact h2.symm
    · rw [if_neg hp] at h2
      exact absurd h2 (by simp)

theorem upsert_some_parts (obf : String → Option Int) (ls : List String)
    (pub psk : String) (ip : Nat) (pfx : Option Nat) (out : List String)
    (h : upsert_peer_block obf ls pub psk ip pfx = some out) :
    ensure_slash32 ip pfx = some ip ∧
    ∃ conf2,
      drop_peer_block (relinesJoin (ensure_interface_has_obf obf ls)) pub
        = some conf2 ∧
      out = append_peer_block (relinesJoin conf2) pub psk
        (ipStr ip ++ "/32") := by
  simp only [upsert_peer_block] at h
  cases he : ensure_slash32 ip pfx with
  | none =>
    rw [he] at h
    exact absurd h (by simp)
  | some j =>
    have hj : j = ip := ensure_slash32_some ip pfx j he
    subst hj
    rw [he] at h
    cases hd : drop_peer_block (relinesJoin (ensure_interface_has_obf obf ls))
        pub with
    | none =>
      rw [hd] at h
      exact absurd h (by simp)
    | some conf2 =>
      rw [hd] at h
      injection h with h
      exact ⟨rfl, conf2, rfl, h.symm⟩

theorem conf1_blocks (obf : String → Option Int) (ls : List String) :
    (splitConf (relinesJoin (ensure_interface_has_obf obf ls))).2.map
        blockPubkeys
      = (splitConf ls).2.map blockPubkeys := by
  rw [(splitConf_trace (relinesJoin (ensure_interface_has_obf obf ls))).2,
    confTrace_relines]
  unfold ensure_interface_has_obf
  rw [confTrace_ensureAux obf ls false [], ← (splitConf_trace ls).2]

theorem blockMatches_eq_O (b : PeerBlock) (pub : String) :
    blockMatches b pub = blockMatchesO pub (blockPubkeys b) := by
  unfold blockMatches blockMatchesO
  cases blockPubkeys b <;> rfl

theorem map_blockPubkeys_filter (blocks : List PeerBlock) (pub : String) :
    (blocks.filter (fun b => !blockMatches b pub)).map blockPubkeys
      = (blocks.map blockPubkeys).filter (fun o => !blockMatchesO pub o) := by
  rw [List.filter_map]
  apply congrArg (List.map blockPubkeys)
  apply List.filter_congr
  intro b _
  show (!blockMatches b pub) = ((fun o => !blockMatchesO pub o) ∘ blockPubkeys) b
  rw [blockMatches_eq_O]
  rfl

theorem upsert_blocks (obf : String → Option Int) (ls : List String)
    (pub psk : String) (ip : Nat) (pfx : Option Nat) (out : List String)
    (hpub : pyStrip pub = pub)
    (h : upsert_peer_block obf ls pub psk ip pfx = some out) :
    (splitConf out).2.map blockPubkeys =
      ((splitConf ls).2.map blockPubkeys).filter
          (fun o => !blockMatchesO pub o)
        ++ [some [pub]] ∧
    (∀ o ∈ (splitConf ls).2.map blockPubkeys, o.isSome = true) ∧
    ∃ front, out = front ++ ["[Peer]", "PublicKey = " ++ pub,
      "PresharedKey = " ++ psk, "AllowedIPs = " ++ (ipStr ip ++ "/32"),
      "PersistentKeepalive = 25"] := by
  obtain ⟨hok, conf2, hdrop, hout⟩ :=
    upsert_some_parts obf ls pub psk ip pfx out h
  obtain ⟨ho2, hall⟩ := drop_peer_block_some _ pub conf2 hdrop
  have hsd := splitConf_drop _ pub conf2 hdrop
  have h2 : (splitConf conf2).2 =
      (splitConf (relinesJoin (ensure_interface_has_obf obf ls))).2.filter
        (fun b => !blockMatches b pub) := by
    rw [hsd]
  refine ⟨?_, ?_, ?_⟩
  · have htrout : confTrace out =
        confTrace conf2 ++ [ConfToken.header, ConfToken.pkv pub] := by
      rw [hout, confTrace_append_peer _ pub psk _ hpub, confTrace_relines]
    have h1 : (splitConf out).2.map blockPubkeys
        = (splitConf conf2).2.map blockPubkeys ++ [some [pub]] := by
      rw [(splitConf_trace out).2, htrout, traceSplit_append_pair,
        ← (splitConf_trace conf2).2]
    rw [h1, h2, map_blockPubkeys_filter, conf1_blocks]
  · intro o ho
    rw [← conf1_blocks obf ls] at ho
    rw [List.mem_map] at ho
    obtain ⟨b, hb, rfl⟩ := ho
    exact List.all_eq_true.mp hall b hb
  · refine ⟨if rstripLines (relinesJoin conf2) = [] then [""]
      else rstripLines (relinesJoin conf2), ?_⟩
    rw [hout]
    rfl

theorem upsert_succeeds (obf : String → Option Int) (ls : List String)
    (pub psk : String) (ip : Nat) (pfx : Option Nat) (j : Nat)
    (hj : ensure_slash32 ip pfx = some j)
    (hall : ∀ o ∈ (splitConf ls).2.map blockPubkeys, o.isSome = true) :
    ∃ out, upsert_peer_block obf ls pub psk ip pfx = some out := by
  have hall1 : ((splitConf (relinesJoin (ensure_interface_has_obf obf ls))).2.all
      (fun b => (blockPubkeys b).isSome)) = true := by
    apply List.all_eq_true.mpr
    intro b hb
    apply hall
    rw [← conf1_blocks obf ls]
    exact List.mem_map_of_mem blockPubkeys hb
  have hd : drop_peer_block (relinesJoin (ensure_interface_has_obf obf ls)) pub
      = some (flattenConf
          (splitConf (relinesJoin (ensure_interface_has_obf obf ls))).1
          ((splitConf (relinesJoin (ensure_interface_has_obf obf ls))).2.filter
            (fun b => !blockMatches b pub))) := by
    simp only [drop_peer_block]
    rw [if_pos hall1]
  have hres : upsert_peer_block obf ls pub psk ip pfx =
      some (append_peer_block (relinesJoin (flattenConf
          (splitConf (relinesJoin (ensure_interface_has_obf obf ls))).1
          ((splitConf (relinesJoin (ensure_interface_has_obf obf ls))).2.filter
            (fun b => !blockMatches b pub)))) pub psk (ipStr j ++ "/32")) := by
    simp only [upsert_peer_block]
    rw [hj, hd]
  exact ⟨_, hres⟩

set_option maxRecDepth 8000 in
/-- C6, counterexample: `upsertPeerBlock` is *not* idempotent for every
`peerId`.  With `peerId = "A "` (trailing blank) on an empty config, both
applications succeed, yet the resulting document holds *two* `[Peer]`
blocks and *zero* blocks whose parsed PublicKey value equals the `peerId`:
the appended line `PublicKey = A ` parses back (after `val.strip()`) to
`"A"`, so the drop pass never matches the block it itself appended. -/
theorem upsert_peer_block_not_idempotent :
    (upsertTwice (fun _ => none) [] "A " "P" 167772162 none).map
        (fun o => ((splitConf o).2.countP (fun b => blockMatches b "A "),
          (splitConf o).2.length))
      = some (0, 2) := by
  decide

/-- C6, amended: for a `peerId` that carries no surrounding whitespace
(`peerId.strip() == peerId`), every successful `upsertPeerBlock` application
(1) turns the document's per-block PublicKey lists into the non-matching
input blocks, in their original order, followed by the fresh block whose
only PublicKey is `peerId`; (2) ends the document with the literal appended
block whose `AllowedIPs` is the supplied host address with `/32`; and (3) a
second application with the same arguments succeeds, leaves the per-block
PublicKey structure unchanged, and the document then holds exactly one
`[Peer]` block whose PublicKey equals `peerId` — the claim's idempotence,
order and `/32` statements, restricted to stripped `peerId`s. -/
theorem upsert_peer_block_amended (obf : String → Option Int)
    (ls : List String) (pub psk : String) (ip : Nat) (pfx : Option Nat)
    (out1 : List String) (hpub : pyStrip pub = pub)
    (h1 : upsert_peer_block obf ls pub psk ip pfx = some out1) :
    ((splitConf out1).2.map blockPubkeys =
      ((splitConf ls).2.map blockPubkeys).filter
          (fun o => !blockMatchesO pub o)
        ++ [some [pub]]) ∧
    (∃ front, out1 = front ++ ["[Peer]", "PublicKey = " ++ pub,
      "PresharedKey = " ++ psk, "AllowedIPs = " ++ (ipStr ip ++ "/32"),
      "PersistentKeepalive = 25"]) ∧
    ∃ out2, upsert_peer_block obf out1 pub psk ip pfx = some out2 ∧
      (splitConf out2).2.map blockPubkeys =
        (splitConf out1).2.map blockPubkeys ∧
      (splitConf out2).2.countP (fun b => blockMatches b pub) = 1 := by
  obtain ⟨hblocks, hall, hfront⟩ :=
    upsert_blocks obf ls pub psk ip pfx out1 hpub h1
  obtain ⟨hok, -⟩ := upsert_some_parts obf ls pub psk ip pfx out1 h1
  have hall1 : ∀ o ∈ (splitConf out1).2.map blockPubkeys, o.isSome = true := by
    rw [hblocks]
    intro o ho
    rcases List.mem_append.mp ho with hm | hm
    · exact hall o (List.mem_of_mem_filter hm)
    · rw [List.mem_singleton.mp hm]
      rfl
  obtain ⟨out2, h2⟩ := upsert_succeeds obf out1 pub psk ip pfx ip hok hall1
  obtain ⟨hblocks2, -, -⟩ := upsert_blocks obf out1 pub psk ip pfx out2 hpub h2
  have hFstable : (((splitConf ls).2.map blockPubkeys).filter
        (fun o => !blockMatchesO pub o)).filter (fun o => !blockMatchesO pub o)
      = ((splitConf ls).2.map blockPubkeys).filter
          (fun o => !blockMatchesO pub o) := by
    rw [List.filter_filter]
    rw [show (fun (o : Option (List String)) =>
        (!blockMatchesO pub o) && (!blockMatchesO pub o)) =
        (fun o => !blockMatchesO pub o) from by
      funext o
      rw [Bool.and_self]]
  have hsingle : ([some [pub]] : List (Option (List String))).filter
      (fun o => !blockMatchesO pub o) = [] := by
    simp [blockMatchesO]
  have hB2 : (splitConf out2).2.map blockPubkeys =
      (splitConf out1).2.map blockPubkeys := by
    rw [hblocks2, hblocks, List.filter_append, hFstable, hsingle,
      List.append_nil]
  refine ⟨hblocks, hfront, out2, h2, hB2, ?_⟩
  have hcnt : (splitConf out2).2.countP (fun b => blockMatches b pub)
      = ((splitConf out2).2.map blockPubkeys).countP
          (fun o => blockMatchesO pub o) := by
    rw [List.countP_map]
    rw [show ((fun o => blockMatchesO pub o) ∘ blockPubkeys) =
        (fun b => blockMatches b pub) from by
      funext b
      show blockMatchesO pub (blockPubkeys b) = blockMatches b pub
      rw [blockMatches_eq_O]]
  rw [hcnt, hB2, hblocks, List.countP_append]
  have hz : (((splitConf ls).2.map blockPubkeys).filter
      (fun o => !blockMatchesO pub o)).countP
        (fun o => blockMatchesO pub o) = 0 := by
    apply List.countP_eq_zero.mpr
    intro o ho
    have hmem := List.of_mem_filter ho
    simp only [Bool.not_eq_true'] at hmem
    simp [hmem]
  rw [hz]
  simp [blockMatchesO]

/-- The document produced by one upsert of pubkey `"A"` onto an empty
config (first line empty because the rstripped empty text still gets the
block's leading newline). -/
def out1W : List String :=
  ["", "[Peer]", "PublicKey = A", "PresharedKey = P",
   "AllowedIPs = 10.0.0.2/32", "PersistentKeepalive = 25"]

set_option maxRecDepth 8000 in
/-- Witness for the amended C6 at a concrete input: upserting pubkey `"A"`
with address `10.0.0.2` onto the empty config. -/
theorem upsert_peer_block_amended_w :
    ((splitConf out1W).2.map blockPubkeys =
      ((splitConf ([] : List String)).2.map blockPubkeys).filter
          (fun o => !blockMatchesO "A" o)
        ++ [some ["A"]]) ∧
    (∃ front, out1W = front ++ ["[Peer]", "PublicKey = " ++ "A",
      "PresharedKey = " ++ "P", "AllowedIPs = " ++ (ipStr 167772162 ++ "/32"),
      "PersistentKeepalive = 25"]) ∧
    ∃ out2, upsert_peer_block (fun _ => none) out1W "A" "P" 167772162 none
        = some out2 ∧
      (splitConf out2).2.map blockPubkeys =
        (splitConf out1W).2.map blockPubkeys ∧
      (splitConf out2).2.countP (fun b => blockMatches b "A") = 1 :=
  upsert_peer_block_amended (fun _ => none) [] "A" "P" 167772162 none out1W
    (by decide) (by decide)


/-! **`_write_conf_text_atomic` of `awg.py`** (claim C8).  The external
effects (local temp file, docker cp, the in-container apply command, the
post-write `stat`) are made explicit: the function returns the ordered list
of performed steps together with the outcome.  The container file store is
assumed faithful up to the externally observed re-read size, passed as
`rsz` (what `stat -c %s` reports for the just-written text). -/

/-- One externally visible action of `_write_conf_text_atomic`, in the
order the code performs them. -/
inductive WriteStep where
  | writeLocalTmp (text : String)
  | copyToContainer
  | mvIntoPlace
  | chownRoot
  | chmod600Conf
  | chmod700Dir
  | stripToTmp
  | testStrippedNonEmpty
  | syncconf
  | statConf
deriving DecidableEq, Repr

/-- UTF-8 byte count of one character (Python `len(text.encode("utf-8"))`
per char; Lean `Char` excludes surrogates just as Python scalar values). -/
def charBytes (c : Char) : Nat :=
  if c.toNat < 128 then 1
  else if c.toNat < 2048 then 2
  else if c.toNat < 65536 then 3
  else 4

/-- UTF-8 byte size of a string (what `os.path.getsize` returns for the
freshly written temp file and `stat -c %s` for the container copy). -/
def byteSize (s : String) : Nat :=
  s.data.foldl (fun n c => n + charBytes c) 0

/-- `conf_text.replace("\r\n", "\n")`: left-to-right, non-overlapping. -/
def stripCrlf : List Char → List Char
  | [] => []
  | '\r' :: '\n' :: rest => '\n' :: stripCrlf rest
  | c :: rest => c :: stripCrlf rest

/-- The newline normalization of `_write_conf_text_atomic`: CRLF → LF, then
lone CR → LF, then ensure a trailing newline. -/
def normalizeConf (s : String) : String :=
  let t : String := ⟨(stripCrlf s.data).map (fun c => if c = '\r' then '\n' else c)⟩
  if t.data.getLast? = some '\n' then t else t ++ "\n"

/-- `_write_conf_text_atomic` with its effects explicit.  A `.error` result
models the raised `RuntimeError`; the step list is what was executed before
returning (the failed sanity checks abort before any container write, the
failed post-check aborts after the full apply). -/
def write_conf_text_atomic (conf_text : String) (rsz : String → Nat) :
    List WriteStep × Except String String :=
  if containsSub conf_text "[Interface]" then
    let t := normalizeConf conf_text
    if byteSize t < 40 then
      ([WriteStep.writeLocalTmp t],
       Except.error "Refusing to write suspiciously small config (local tmp)")
    else
      let steps := [WriteStep.writeLocalTmp t, WriteStep.copyToContainer,
        WriteStep.mvIntoPlace, WriteStep.chownRoot, WriteStep.chmod600Conf,
        WriteStep.chmod700Dir, WriteStep.stripToTmp,
        WriteStep.testStrippedNonEmpty, WriteStep.syncconf,
        WriteStep.statConf]
      if rsz t < 40 then
        (steps,
         Except.error "Refusing to write suspicious conf_text (post-write)")
      else (steps, Except.ok t)
  else
    ([], Except.error "Refusing to write conf_text without [Interface]")

theorem normalizeConf_newline (s : String) :
    (normalizeConf s).data.getLast? = some '\n' ∧
    '\r' ∉ (normalizeConf s).data := by
  simp only [normalizeConf]
  have hno : '\r' ∉ (stripCrlf s.data).map
      (fun c => if c = '\r' then '\n' else c) := by
    intro hm2
    rw [List.mem_map] at hm2
    obtain ⟨a, _, hfa⟩ := hm2
    by_cases ha : a = '\r'
    · rw [if_pos ha] at hfa
      exact absurd hfa (by decide)
    · rw [if_neg ha] at hfa
      exact ha hfa
  by_cases hl : (⟨(stripCrlf s.data).map (fun c => if c = '\r' then '\n' else c)⟩
      : String).data.getLast? = some '\n'
  · rw [if_pos hl]
    exact ⟨hl, hno⟩
  · rw [if_neg hl]
    constructor
    · show ((⟨(stripCrlf s.data).map (fun c => if c = '\r' then '\n' else c)⟩
          : String) ++ "\n").data.getLast? = some '\n'
      rw [String.data_append]
      exact List.getLast?_concat _
    · show '\r' ∉ ((⟨(stripCrlf s.data).map (fun c => if c = '\r' then '\n' else c)⟩
          : String) ++ "\n").data
      rw [String.data_append]
      intro hm
      rcases List.mem_append.mp hm with hm | hm
      · exact hno hm
      · rcases List.mem_singleton.mp hm with h
        exact absurd h (by decide)

/-- C8: `_write_conf_text_atomic` errors without any write when the
candidate text lacks `[Interface]`; errors after only the local temp write
(never reaching the container rename) when the normalized text is below the
40-byte sanity threshold; otherwise performs, in order, the temp write, the
copy, the rename into place, the ownership and permission tightening on the
config file and its directory, the strip, the non-empty test of the
stripped output, the syncconf, and the size re-read — writing the
CRLF-normalized, newline-terminated text — and fails if the re-read size
again violates the threshold, succeeding otherwise. -/
theorem write_conf_text_atomic_checks (conf_text : String)
    (rsz : String → Nat) :
    (containsSub conf_text "[Interface]" = false →
      write_conf_text_atomic conf_text rsz =
        ([], Except.error "Refusing to write conf_text without [Interface]")) ∧
    (containsSub conf_text "[Interface]" = true →
      byteSize (normalizeConf conf_text) < 40 →
      write_conf_text_atomic conf_text rsz =
        ([WriteStep.writeLocalTmp (normalizeConf conf_text)],
         Except.error
           "Refusing to write suspiciously small config (local tmp)") ∧
      WriteStep.mvIntoPlace ∉ (write_conf_text_atomic conf_text rsz).1) ∧
    (containsSub conf_text "[Interface]" = true →
      ¬ byteSize (normalizeConf conf_text) < 40 →
      (write_conf_text_atomic conf_text rsz).1 =
        [WriteStep.writeLocalTmp (normalizeConf conf_text),
         WriteStep.copyToContainer, WriteStep.mvIntoPlace,
         WriteStep.chownRoot, WriteStep.chmod600Conf, WriteStep.chmod700Dir,
         WriteStep.stripToTmp, WriteStep.testStrippedNonEmpty,
         WriteStep.syncconf, WriteStep.statConf] ∧
      (normalizeConf conf_text).data.getLast? = some '\n' ∧
      '\r' ∉ (normalizeConf conf_text).data ∧
      (rsz (normalizeConf conf_text) < 40 →
        (write_conf_text_atomic conf_text rsz).2 =
          Except.error "Refusing to write suspicious conf_text (post-write)") ∧
      (¬ rsz (normalizeConf conf_text) < 40 →
        (write_conf_text_atomic conf_text rsz).2 =
          Except.ok (normalizeConf conf_text))) := by
  refine ⟨?_, ?_, ?_⟩
  · intro hni
    simp only [write_conf_text_atomic]
    rw [if_neg (by simp [hni])]
  · intro hi hsmall
    simp only [write_conf_text_atomic]
    rw [if_pos hi, if_pos hsmall]
    refine ⟨rfl, ?_⟩
    simp
  · intro hi hbig
    simp only [write_conf_text_atomic]
    rw [if_pos hi, if_neg hbig]
    obtain ⟨hnl, hcr⟩ := normalizeConf_newline conf_text
    by_cases hr : rsz (normalizeConf conf_text) < 40
    · rw [if_pos hr]
      exact ⟨rfl, hnl, hcr, fun _ => rfl, fun hh => absurd hr hh⟩
    · rw [if_neg hr]
      exact ⟨rfl, hnl, hcr, fun hh => absurd hh hr, fun _ => rfl⟩

/-- A well-formed candidate config for the C8 witness. -/
def confW : String :=
  "[Interface]\r\nPrivateKey = 0123456789abcdef0123456789abcdef"

set_option maxRecDepth 4000 in
/-- Witness for C8: a concrete text containing `[Interface]` and CRLF, with
the faithful size observation `byteSize`; the full step list runs and the
normalized, newline-terminated text is written. -/
theorem write_conf_text_atomic_checks_w :
    (write_conf_text_atomic confW byteSize).1 =
      [WriteStep.writeLocalTmp (normalizeConf confW),
       WriteStep.copyToContainer, WriteStep.mvIntoPlace,
       WriteStep.chownRoot, WriteStep.chmod600Conf, WriteStep.chmod700Dir,
       WriteStep.stripToTmp, WriteStep.testStrippedNonEmpty,
       WriteStep.syncconf, WriteStep.statConf] ∧
    (normalizeConf confW).data.getLast? = some '\n' ∧
    '\r' ∉ (normalizeConf confW).data ∧
    (byteSize (normalizeConf confW) < 40 →
      (write_conf_text_atomic confW byteSize).2 =
        Except.error "Refusing to write suspicious conf_text (post-write)") ∧
    (¬ byteSize (normalizeConf confW) < 40 →
      (write_conf_text_atomic confW byteSize).2 =
        Except.ok (normalizeConf confW)) :=
  (write_conf_text_atomic_checks confW byteSize).2.2 (by decide) (by decide)


end AwgBot
